import Mathlib

/-!
Verification of the project-orchestrator state/checkpoint tooling
(`skill/scripts/validate_state.py` and `skill/scripts/checkpoint.py`).

The Python code is shallowly embedded: YAML/JSON documents become the
inductive `JValue`, the typed state file checked by `validate_state.py`
becomes `StateDoc`, filesystem state touched by `checkpoint.py` becomes
the record `Orch`, and each Python function becomes a Lean function of
the same name.  Wall-clock instants (`datetime.now()`) become an explicit
`DT` argument, and the SHA-256 digest becomes an abstract function
argument `h : String → String` (only the canonical serialization that is
fed to the digest is modelled concretely).
-/

namespace Orchestrator

/-- A YAML/JSON document value, as produced by `yaml.safe_load` /
`json.load`.  Mappings keep insertion order, as Python dicts do. -/
inductive JValue : Type where
  | null : JValue
  | bool : Bool → JValue
  | num : Int → JValue
  | str : String → JValue
  | arr : List JValue → JValue
  | obj : List (String × JValue) → JValue

namespace JValue

/-- `d.get(k)` on a Python dict with unique keys: the value stored at
`k`, or `none` when the key is absent (or the value is not a mapping). -/
def jGet : JValue → String → Option JValue
  | .obj fields, k => (fields.find? (fun p => p.1 = k)).map Prod.snd
  | _, _ => none

/-- `d[k] = v` on a Python dict: replace the value at an existing key,
otherwise insert at the end (Python dicts preserve insertion order). -/
def setField (fields : List (String × JValue)) (k : String) (v : JValue) :
    List (String × JValue) :=
  if fields.any (fun p => p.1 = k) then
    fields.map (fun p => if p.1 = k then (k, v) else p)
  else fields ++ [(k, v)]

end JValue

/-! ## The Integrity Hasher (`compute_state_hash`)

`compute_state_hash(state)` is `sha256(json.dumps(state, sort_keys=True))`
truncated.  `json.dumps(·, sort_keys=True)` emits every mapping with its
keys sorted; we model the serialization exactly (item separator `", "`,
key separator `": "`) and keep the digest abstract. -/

/-- Sort a mapping's fields by key, as `json.dumps(_, sort_keys=True)`
does at every nesting level. -/
def sortFields (fields : List (String × JValue)) : List (String × JValue) :=
  fields.mergeSort (fun a b => a.1 ≤ b.1)

mutual

/-- Recursively sort every mapping's keys (the canonicalization performed
by `json.dumps(state, sort_keys=True)` before emission). -/
def canonV : JValue → JValue
  | .null => .null
  | .bool b => .bool b
  | .num n => .num n
  | .str s => .str s
  | .arr xs => .arr (canonL xs)
  | .obj fs => .obj (sortFields (canonF fs))

def canonL : List JValue → List JValue
  | [] => []
  | x :: xs => canonV x :: canonL xs

def canonF : List (String × JValue) → List (String × JValue)
  | [] => []
  | (k, v) :: fs => (k, canonV v) :: canonF fs

end

/-- JSON string literal (escaping of quote and backslash). -/
def encStr (s : String) : String :=
  "\"" ++ String.join (s.data.map (fun c =>
    if c = '"' then "\\\"" else if c = '\\' then "\\\\" else String.singleton c)) ++ "\""

/-- Interleave the separator `", "` used by `json.dumps` between items. -/
def joinComma : List String → String
  | [] => ""
  | [x] => x
  | x :: xs => x ++ ", " ++ joinComma xs

mutual

/-- Emit a (already key-sorted) document in `json.dumps` syntax. -/
def encV : JValue → String
  | .null => "null"
  | .bool b => cond b "true" "false"
  | .num n => toString n
  | .str s => encStr s
  | .arr xs => "[" ++ joinComma (encL xs) ++ "]"
  | .obj fs => "\x7b" ++ joinComma (encF fs) ++ "\x7d"

def encL : List JValue → List String
  | [] => []
  | x :: xs => encV x :: encL xs

def encF : List (String × JValue) → List String
  | [] => []
  | (k, v) :: fs => (encStr k ++ ": " ++ encV v) :: encF fs

end

/-- `json.dumps(state, sort_keys=True)`. -/
def jdumps (v : JValue) : String := encV (canonV v)

/-- `compute_state_hash(state)`: the digest (`h` abstracts
`sha256 ∘ hexdigest ∘ truncate`) of the canonical serialization. -/
def compute_state_hash (h : String → String) (state : JValue) : String :=
  h (jdumps state)

/-! ## Wall-clock instants and checkpoint ids

`generate_checkpoint_id` derives the id from `datetime.now()` formatted
with `strftime("%Y%m%d_%H%M%S")` — a second-resolution reading of the
wall clock.  We model the instant passed to each operation explicitly. -/

/-- A wall-clock reading at the resolution `strftime("%Y%m%d_%H%M%S")`
can observe (one second). -/
structure DT where
  year : Nat
  month : Nat
  day : Nat
  hour : Nat
  minute : Nat
  second : Nat
deriving DecidableEq, Repr

/-- Field ranges guaranteed by Python's `datetime`. -/
def DT.Valid (t : DT) : Prop :=
  t.year < 10000 ∧ 1 ≤ t.month ∧ t.month ≤ 12 ∧ 1 ≤ t.day ∧ t.day ≤ 31 ∧
    t.hour < 24 ∧ t.minute < 60 ∧ t.second < 60

instance (t : DT) : Decidable t.Valid := by unfold DT.Valid; infer_instance

/-- Chronological (lexicographic field) order on clock readings. -/
def DT.lt (t u : DT) : Prop :=
  t.year < u.year ∨ (t.year = u.year ∧
    (t.month < u.month ∨ (t.month = u.month ∧
      (t.day < u.day ∨ (t.day = u.day ∧
        (t.hour < u.hour ∨ (t.hour = u.hour ∧
          (t.minute < u.minute ∨ (t.minute = u.minute ∧
            t.second < u.second)))))))))

instance (t u : DT) : Decidable (DT.lt t u) := by unfold DT.lt; infer_instance

/-- Zero-padded two-digit decimal field of `strftime`. -/
def pad2 (n : Nat) : List Char := [Nat.digitChar (n / 10), Nat.digitChar (n % 10)]

/-- Zero-padded four-digit decimal field (`%Y`). -/
def pad4 (n : Nat) : List Char := pad2 (n / 100) ++ pad2 (n % 100)

/-- `t.strftime("%Y%m%d_%H%M%S")`. -/
def fmtTimestamp (t : DT) : String :=
  ⟨pad4 t.year ++ pad2 t.month ++ pad2 t.day ++ '_' ::
    (pad2 t.hour ++ pad2 t.minute ++ pad2 t.second)⟩

/-- `generate_checkpoint_id()`: `"cp_" + now.strftime("%Y%m%d_%H%M%S")`. -/
def generate_checkpoint_id (t : DT) : String := "cp_" ++ fmtTimestamp t

/-- `now.isoformat()` (at the second resolution of the model). -/
def isoTimestamp (t : DT) : String :=
  ⟨pad4 t.year ++ '-' :: pad2 t.month ++ '-' :: pad2 t.day ++ 'T' ::
    (pad2 t.hour ++ ':' :: pad2 t.minute ++ ':' :: pad2 t.second)⟩

/-! ## The State Validator (`validate_state.py`)

The state file checked by `validate_state.py` is a mapping with the
sections `project`, `phase`, `tasks`, `session`.  Each Python
`d.get(key)` chain on these known sections is embedded as a typed field:
`Option` marks a key that may be absent, and values that the code only
ever passes through truthiness tests or string comparisons are kept as
`Option String`. -/

/-- Python truthiness of `d.get(k)` for a string-valued key: `None`
(absent key) and the empty string are falsy. -/
def truthy : Option String → Bool
  | none => false
  | some s => s != ""

/-- Rendering of a possibly-`None` value inside an f-string. -/
def pyStr : Option String → String
  | none => "None"
  | some s => s

/-- One element of the state file's `tasks` list.  `hard`/`soft` embed
`task.get("dependencies", {}).get("hard"/"soft", [])`. -/
structure VTask where
  id : Option String
  name : Option String
  status : Option String
  started_at : Option String
  completed_at : Option String
  verified_at : Option String
  acceptance_criteria : List String
  hard : List String
  soft : List String
deriving DecidableEq, Repr

/-- The `project` section (fields the validator reads). -/
structure VProject where
  pid : Option String
  name : Option String
  goal : Option String
  created : Option String
deriving DecidableEq, Repr

/-- The `session` section (fields touched by repair; the
`context_usage` ratio only feeds a warning and is not modelled). -/
structure VSession where
  sid : Option String
  last_updated : Option String
  notes : Option String
deriving DecidableEq, Repr

/-- The state document as loaded by `validate_state.py`.  The outer
`Option` of each field records whether the key is present at all (the
`validate_required_fields` check); `phase`'s inner `Option` is the value
(`none` for YAML `null`). -/
structure StateDoc where
  project : Option VProject
  phase : Option (Option String)
  tasks : Option (List VTask)
  session : Option VSession
deriving DecidableEq, Repr

/-- `validate_required_fields(state)`. -/
def validate_required_fields (s : StateDoc) : List String :=
  (if s.project.isNone then ["Missing required field: project"] else []) ++
  (if s.phase.isNone then ["Missing required field: phase"] else []) ++
  (if s.tasks.isNone then ["Missing required field: tasks"] else []) ++
  (if s.session.isNone then ["Missing required field: session"] else [])

/-- `validate_project(state)` (errors component; warnings analogous). -/
def validate_project (s : StateDoc) : List String × List String :=
  let p := s.project
  ((if truthy (p.bind VProject.pid) then [] else ["Project missing 'id'"]) ++
   (if truthy (p.bind VProject.name) then [] else ["Project missing 'name'"]),
   (if truthy (p.bind VProject.goal) then []
    else ["Project missing 'goal' - recommended to add"]) ++
   (if truthy (p.bind VProject.created) then []
    else ["Project missing 'created' timestamp"]))

/-- `validate_phase(state)`. -/
def validate_phase (s : StateDoc) : List String :=
  let phase : Option String := s.phase.getD none
  let valid := ["planning", "implementation", "review", "complete"]
  match phase with
  | some p =>
      if p ∈ valid then []
      else ["Invalid phase '" ++ p ++
        "'. Must be one of: ['planning', 'implementation', 'review', 'complete']"]
  | none => ["Invalid phase 'None'. Must be one of: " ++
      "['planning', 'implementation', 'review', 'complete']"]

/-- The per-task first loop of `validate_tasks`, folded in list order,
accumulating `(errors, warnings, task_ids)`. -/
def taskChecksStep (acc : List String × List String × List String)
    (it : Nat × VTask) : List String × List String × List String :=
  let (errors, warnings, ids) := acc
  let (i, task) := it
  if ¬ truthy task.id then
    (errors ++ ["Task at index " ++ toString i ++ " missing 'id'"], warnings, ids)
  else
    let tid := pyStr task.id
    let errors := errors ++
      (if truthy task.name then [] else ["Task " ++ tid ++ " missing 'name'"]) ++
      (if tid ∈ ids then ["Duplicate task ID: " ++ tid] else []) ++
      (if task.status.getD "None" ∈
          ["pending", "in_progress", "completed", "verified", "blocked", "needs_human"]
          ∧ task.status.isSome then []
       else ["Task " ++ tid ++ " has invalid status '" ++ pyStr task.status ++ "'"])
    let warnings := warnings ++
      (if task.status = some "completed" ∧ ¬ truthy task.completed_at then
        ["Task " ++ tid ++ " is completed but missing 'completed_at'"] else []) ++
      (if task.status = some "verified" ∧ ¬ truthy task.verified_at then
        ["Task " ++ tid ++ " is verified but missing 'verified_at'"] else []) ++
      (if task.status = some "in_progress" ∧ ¬ truthy task.started_at then
        ["Task " ++ tid ++ " is in_progress but missing 'started_at'"] else []) ++
      (if task.acceptance_criteria.length < 1 then
        ["Task " ++ tid ++ " has no acceptance criteria"] else [])
    (errors, warnings, ids ++ [tid])

/-- `validate_tasks(state)`: the per-task loop, then the dependency
cross-check against the collected id set. -/
def validate_tasks (s : StateDoc) : List String × List String :=
  let tasks := s.tasks.getD []
  let (errors, warnings, ids) := tasks.enum.foldl taskChecksStep ([], [], [])
  let depErrors := tasks.flatMap (fun t =>
    (t.hard.filter (fun d => ¬ d ∈ ids)).map (fun d =>
      "Task " ++ pyStr t.id ++ " references non-existent dependency: " ++ d))
  let depWarnings := tasks.flatMap (fun t =>
    (t.soft.filter (fun d => ¬ d ∈ ids)).map (fun d =>
      "Task " ++ pyStr t.id ++ " has soft dependency on non-existent task: " ++ d))
  (errors ++ depErrors, warnings ++ depWarnings)

/-! ### The Dependency Graph Checker (`validate_dag`, Kahn's algorithm) -/

/-- A graph node: `task.get("id")`, which may be `None`. -/
abbrev Node := Option String

/-- The hard-dependency edge list (edge dependency → dependent), in the
order the Python loops create the adjacency lists. -/
def hardEdges (tasks : List VTask) : List (Node × Node) :=
  tasks.flatMap (fun t => t.hard.map (fun d => ((some d : Node), t.id)))

/-- The adjacency list `graph[u]` built by `validate_dag`. -/
def graphOf (tasks : List VTask) (u : Node) : List Node :=
  ((hardEdges tasks).filter (fun e => e.1 = u)).map Prod.snd

/-- `in_degree[v]` after the build loop (a Python `int`). -/
def initDeg (tasks : List VTask) (v : Node) : Int :=
  (((hardEdges tasks).filter (fun e => e.2 = v)).length : Int)

/-- The node set `all_ids` (Python iterates it in unspecified set order;
we fix first-occurrence order, which does not affect any returned set). -/
def allIds (tasks : List VTask) : List Node := (tasks.map VTask.id).dedup

/-- The inner `for neighbor in graph[current]` loop: decrement each
neighbour's in-degree and enqueue it when the count reaches zero. -/
def processNeighbors : List Node → (Node → Int) → List Node → ((Node → Int) × List Node)
  | [], deg, q => (deg, q)
  | n :: ns, deg, q =>
      let d := deg n - 1
      processNeighbors ns (fun v => if v = n then d else deg v)
        (if d = 0 then q ++ [n] else q)

/-- The `while queue:` loop of Kahn's algorithm.  The loop runs at most
once per enqueued node, so any fuel exceeding that bound reproduces the
Python loop exactly (`kahn_fuel_sufficient` below discharges this). -/
def kahnLoop (graph : Node → List Node) :
    Nat → List Node → (Node → Int) → List Node → List Node
  | 0, _, _, sorted => sorted
  | _ + 1, [], _, sorted => sorted
  | fuel + 1, current :: rest, deg, sorted =>
      let p := processNeighbors (graph current) deg rest
      kahnLoop graph fuel p.2 p.1 (sorted ++ [current])

/-- `sorted_order` as computed by `validate_dag`'s peel. -/
def kahnSorted (tasks : List VTask) : List Node :=
  let ids := allIds tasks
  let deg := initDeg tasks
  kahnLoop (graphOf tasks) (ids.length + 1)
    (ids.filter (fun v => deg v = 0)) deg []

/-- `validate_dag(state)`: `(True, "Valid DAG")` on success, otherwise
`(False, remaining)` where `remaining = all_ids - set(sorted_order)` is
the reported cycle set (returned in first-occurrence order). -/
def validate_dag (s : StateDoc) : Bool × List Node :=
  let tasks := s.tasks.getD []
  let ids := allIds tasks
  let sorted := kahnSorted tasks
  if sorted.length = ids.length then (true, [])
  else (false, ids.filter (fun v => ¬ v ∈ sorted))

/-- Edges into `v` whose source has already been peeled: the total
decrement applied to `in_degree[v]` once every node of `sorted` has been
processed. -/
def cntInto (tasks : List VTask) (sorted : List Node) (v : Node) : Nat :=
  ((hardEdges tasks).filter (fun e => e.1 ∈ sorted ∧ e.2 = v)).length

/-- Edges into `v` from a node set `S`. -/
def cntFrom (tasks : List VTask) (S : List Node) (v : Node) : Nat :=
  ((hardEdges tasks).filter (fun e => e.1 ∈ S ∧ e.2 = v)).length

/-- The hard-dependency relation contains a cycle: a non-empty node set
each of whose members has a hard-dependency predecessor inside the set
(for a finite graph this is equivalent to containing a directed cycle;
a task depending on itself yields the singleton set). -/
def HasCycle (tasks : List VTask) : Prop :=
  ∃ S : List Node, S ≠ [] ∧ (∀ s ∈ S, s ∈ allIds tasks) ∧
    ∀ s ∈ S, ∃ p ∈ S, (p, s) ∈ hardEdges tasks

/-- Every hard dependency names an existing task (no dangling edge
source). -/
def EdgesClosed (tasks : List VTask) : Prop :=
  ∀ e ∈ hardEdges tasks, e.1 ∈ allIds tasks

instance (tasks : List VTask) : Decidable (EdgesClosed tasks) := by
  unfold EdgesClosed
  infer_instance

/-- The error accumulation of `validate_state.main`: required-field
errors; if none, the project, phase, task and graph errors (the
remaining stages produce only warnings). -/
def validationErrors (s : StateDoc) : List String :=
  let req := validate_required_fields s
  if req = [] then
    (validate_project s).1 ++ validate_phase s ++ (validate_tasks s).1 ++
      (if (validate_dag s).1 then []
       else ["Circular dependency involving: " ++ toString ((validate_dag s).2.map pyStr)])
  else req

/-! ### Auto-repair (`auto_repair`) -/

/-- The timestamp backfills `auto_repair` applies to a single task, with
the repair messages it records, in program order. -/
def repairTask (now : String) (t : VTask) : VTask × List String :=
  let (t₁, r₁) :=
    if t.status = some "completed" ∧ ¬ truthy t.completed_at then
      ({ t with completed_at := some now },
       ["Set completed_at for " ++ pyStr t.id])
    else (t, [])
  let (t₂, r₂) :=
    if t₁.status = some "verified" ∧ ¬ truthy t₁.verified_at then
      ({ t₁ with verified_at := some now },
       ["Set verified_at for " ++ pyStr t₁.id])
    else (t₁, [])
  let (t₃, r₃) :=
    if t₂.status = some "in_progress" ∧ ¬ truthy t₂.started_at then
      ({ t₂ with started_at := some now },
       ["Set started_at for " ++ pyStr t₂.id])
    else (t₂, [])
  (t₃, r₁ ++ r₂ ++ r₃)

/-- `auto_repair(state, errors, warnings)`: backfill missing lifecycle
timestamps, then unconditionally refresh `session.last_updated` whenever
the document has a `session` section.  The `errors`/`warnings` arguments
are accepted and ignored, as in the source. -/
def auto_repair (now : String) (state : StateDoc)
    (_errors _warnings : List String) : StateDoc × List String :=
  let pairs := (state.tasks.getD []).map (repairTask now)
  let newTasks := state.tasks.map (fun _ => pairs.map Prod.fst)
  let taskRepairs := pairs.flatMap Prod.snd
  match state.session with
  | some sess =>
      ({ state with
          tasks := newTasks
          session := some { sess with last_updated := some now } },
       taskRepairs ++ ["Updated session.last_updated"])
  | none => ({ state with tasks := newTasks }, taskRepairs)

/-! ## The Checkpoint Manager (`checkpoint.py`)

`checkpoint.py` treats the state document generically (any YAML value),
so here the document is a `JValue`.  The filesystem contents under the
orchestrator directory that the script reads and writes are collected in
the record `Orch`. -/

/-- A summary entry of `manifest["checkpoints"]`. -/
structure ManifestEntry where
  id : String
  created : String
  trigger : String
  task : Option String
  file : String
deriving DecidableEq, Repr

/-- `checkpoints/manifest.yaml`.  `keep_last` embeds
`manifest.get("retention", {}).get("keep_last", 10)` (`none` when the
key is absent); the unused `keep_milestones`/`max_age_days` fields are
not modelled. -/
structure Manifest where
  checkpoints : List ManifestEntry
  latest : Option String
  keep_last : Option Nat
deriving DecidableEq, Repr

/-- The `context` summary embedded in a checkpoint record. -/
structure CpContext where
  phase : Option JValue
  phase_progress : JValue
  active_tasks : List JValue

/-- A full checkpoint record (`checkpoints/<id>.yaml`).  `parent` is
`none` when the key is absent. -/
structure Checkpoint where
  id : String
  created : String
  trigger : String
  description : String
  task_id : Option String
  state_hash : Option String
  state_snapshot : JValue
  context : CpContext
  parent : Option String

/-- The orchestrator directory: `state.yaml`, `checkpoints/manifest.yaml`,
the checkpoint files (name → contents) and the `backups` directory. -/
structure Orch where
  stateFile : Option JValue
  manifestFile : Option Manifest
  cpFiles : List (String × Checkpoint)
  backups : List (String × JValue)

/-- `save_yaml_file` to a named checkpoint file: overwrite an existing
file of that name, otherwise add it. -/
def writeCpFile (files : List (String × Checkpoint)) (name : String)
    (c : Checkpoint) : List (String × Checkpoint) :=
  if files.any (fun p => p.1 = name) then
    files.map (fun p => if p.1 = name then (name, c) else p)
  else files ++ [(name, c)]

/-- `cp_path.unlink()` guarded by `cp_path.exists()`. -/
def deleteCpFile (files : List (String × Checkpoint)) (name : String) :
    List (String × Checkpoint) :=
  files.filter (fun p => p.1 ≠ name)

/-- Python `l[:-k]`: for `k = 0` the stop index `-0` is `0`, so the
slice is empty; otherwise everything but the last `k` items. -/
def pyDropLast {α : Type} (l : List α) (k : Nat) : List α :=
  if k = 0 then [] else l.take (l.length - k)

/-- Python `l[-k:]`: for `k = 0` the start index `-0` is `0`, so the
whole list; otherwise the last `k` items. -/
def pyTakeLast {α : Type} (l : List α) (k : Nat) : List α :=
  if k = 0 then l else l.drop (l.length - k)

/-- `enforce_retention(manifest, checkpoints_path)`: when the manifest
holds more than `keep_last` entries, keep the most recent `keep_last`
and unlink the storage files of the rest. -/
def enforce_retention (manifest : Manifest)
    (files : List (String × Checkpoint)) :
    Manifest × List (String × Checkpoint) :=
  let keep_last := manifest.keep_last.getD 10
  let cps := manifest.checkpoints
  if cps.length > keep_last then
    let toRemove := pyDropLast cps keep_last
    ({ manifest with checkpoints := pyTakeLast cps keep_last },
     toRemove.foldl (fun fs cp => deleteCpFile fs cp.file) files)
  else (manifest, files)

/-- The list comprehension building `context["active_tasks"]`:
`[t["id"] for t in tasks if t.get("status") == "in_progress"]`, with the
Python exceptions (non-dict element, missing `id`) surfaced as errors. -/
def activeIds : List JValue → Except String (List JValue)
  | [] => .ok []
  | t :: ts =>
      match t with
      | .obj tf =>
          match (tf.find? (fun p => p.1 = "status")).map Prod.snd with
          | some (.str s) =>
              if s = "in_progress" then
                match (tf.find? (fun p => p.1 = "id")).map Prod.snd with
                | some v => (activeIds ts).map (fun l => v :: l)
                | none => .error "KeyError: 'id'"
              else activeIds ts
          | _ => activeIds ts
      | _ => .error "AttributeError: get"

/-- Build the `context` dict of `create_checkpoint` (lines 83-90),
surfacing the exceptions its `state.get` chain can raise. -/
def buildContext (state : JValue) : Except String CpContext :=
  match state with
  | .obj fields =>
      let tasksJ := ((fields.find? (fun p => p.1 = "tasks")).map Prod.snd).getD (.arr [])
      match tasksJ with
      | .arr ts =>
          (activeIds ts).map (fun acts =>
            { phase := (fields.find? (fun p => p.1 = "phase")).map Prod.snd
              phase_progress :=
                ((fields.find? (fun p => p.1 = "phase_progress")).map Prod.snd).getD (.num 0)
              active_tasks := acts })
      | _ => .error "TypeError: tasks not iterable as dicts"
  | _ => .error "AttributeError: get"

/-- `create_checkpoint(base_path, trigger, description, task_id)` at
clock reading `t`, with digest `h`.  Returns the updated directory and
either the in-memory checkpoint dict or the raised error. -/
def create_checkpoint (h : String → String) (t : DT) (fs : Orch)
    (trigger : String) (description : Option String)
    (task_id : Option String) : Orch × Except String Checkpoint :=
  match fs.stateFile with
  | none => (fs, .error "State file not found")
  | some state =>
      let checkpoint_id := generate_checkpoint_id t
      let now := isoTimestamp t
      match buildContext state with
      | .error e => (fs, .error e)
      | .ok ctx =>
          let cp : Checkpoint :=
            { id := checkpoint_id
              created := now
              trigger := trigger
              description :=
                if truthy description then description.getD ""
                else "Checkpoint triggered by " ++ trigger
              task_id := task_id
              state_hash := some (compute_state_hash h state)
              state_snapshot := state
              context := ctx
              parent := none }
          let checkpoint_file := checkpoint_id ++ ".yaml"
          let files₁ := writeCpFile fs.cpFiles checkpoint_file cp
          let manifest₀ : Manifest := fs.manifestFile.getD
            { checkpoints := [], latest := none, keep_last := some 10 }
          let manifest₁ := { manifest₀ with checkpoints :=
            manifest₀.checkpoints ++
              [(⟨checkpoint_id, now, trigger, task_id, checkpoint_file⟩ : ManifestEntry)] }
          let cpRet := if truthy manifest₁.latest
            then { cp with parent := manifest₁.latest } else cp
          let manifest₂ := { manifest₁ with latest := some checkpoint_id }
          let r := enforce_retention manifest₂ files₁
          ({ fs with
              cpFiles := r.2
              manifestFile := some r.1 }, .ok cpRet)

/-- The exceptions `restore_checkpoint` can raise. -/
inductive RestoreErr : Type where
  | noManifest : RestoreErr
  | noLatest : RestoreErr
  | mustSpecify : RestoreErr
  | notFound : String → RestoreErr
  | fileMissing : String → RestoreErr
  | keyError : RestoreErr
deriving DecidableEq, Repr

/-- The summary dict returned by a successful restore. -/
structure RestoreResult where
  restored_from : String
  checkpoint_created : String
  phase : Option JValue
  progress : JValue

/-- `restore_checkpoint(base_path, checkpoint_id, latest)` at clock
reading `t`, with digest `h`.  Returns the directory as left on disk,
the warnings printed, and the result or raised error.  Note the
non-atomic failure path: the state file is overwritten before the
`state_snapshot["session"]` subscripts are attempted. -/
def restore_checkpoint (h : String → String) (t : DT) (fs : Orch)
    (checkpoint_id : Option String) (latest : Bool) :
    Orch × List String × Except RestoreErr RestoreResult :=
  match fs.manifestFile with
  | none => (fs, [], .error .noManifest)
  | some manifest =>
      let resolved : Except RestoreErr String :=
        if latest then
          if truthy manifest.latest then .ok (manifest.latest.getD "")
          else .error .noLatest
        else if truthy checkpoint_id then .ok (checkpoint_id.getD "")
        else .error .mustSpecify
      match resolved with
      | .error e => (fs, [], .error e)
      | .ok cid =>
          match manifest.checkpoints.find? (fun cp => cp.id = cid) with
          | none => (fs, [], .error (.notFound cid))
          | some entry =>
              match fs.cpFiles.find? (fun p => p.1 = entry.file) with
              | none => (fs, [], .error (.fileMissing entry.file))
              | some found =>
                  let checkpoint := found.2
                  let snapshot := checkpoint.state_snapshot
                  let actual := compute_state_hash h snapshot
                  let warnings :=
                    match checkpoint.state_hash with
                    | some e =>
                        if e ≠ "" ∧ actual ≠ e then
                          ["Warning: Checkpoint hash mismatch. Data may be corrupted."]
                        else []
                    | none => []
                  let fs₁ :=
                    match fs.stateFile with
                    | some live =>
                        { fs with backups := fs.backups ++
                          [("state_before_restore_" ++ fmtTimestamp t ++ ".yaml", live)] }
                    | none => fs
                  let fs₂ := { fs₁ with stateFile := some snapshot }
                  match snapshot with
                  | .obj sfields =>
                      match (sfields.find? (fun p => p.1 = "session")).map Prod.snd with
                      | some (.obj sess) =>
                          let sess₂ := JValue.setField
                            (JValue.setField sess "last_updated" (.str (isoTimestamp t)))
                            "notes" (.str ("Restored from checkpoint " ++ cid))
                          let stamped : JValue :=
                            .obj (JValue.setField sfields "session" (.obj sess₂))
                          let fs₃ := { fs₂ with stateFile := some stamped }
                          (fs₃, warnings, .ok
                            { restored_from := cid
                              checkpoint_created := checkpoint.created
                              phase := stamped.jGet "phase"
                              progress := (stamped.jGet "phase_progress").getD (.num 0) })
                      | _ => (fs₂, warnings, .error .keyError)
                  | _ => (fs₂, warnings, .error .keyError)

/-- The character lexicographic order underlying Mathlib's `String` order. -/
abbrev CLex : List Char → List Char → Prop := List.Lex (· < ·)

/-- A state document used to exhibit the non-idempotence of
`auto_repair`: it carries a `session` section (and a task whose
`completed_at` the first pass backfills). -/
def c1Doc : StateDoc :=
  ⟨some ⟨some "p1", some "proj", none, none⟩, some (some "implementation"),
   some [⟨some "A", some "task A", some "completed", none, none, none, [], [], []⟩],
   some ⟨some "s1", some "2026-01-01T00:00:00", none⟩⟩

/-- A directory in which no checkpoint was ever created. -/
def c8Fs : Orch := ⟨some (.obj [("phase", .str "planning")]), none, [], []⟩

/-- A checkpoint whose snapshot lacks a `session` mapping. -/
def c10Cp : Checkpoint :=
  ⟨"cp_x", "2026-01-01T00:00:00", "manual", "d", none, some "ff",
   .obj [("phase", .str "review")], ⟨none, .num 0, []⟩, none⟩

/-- A directory holding `c10Cp` as its only (and latest) checkpoint. -/
def c10Fs : Orch :=
  ⟨some (.obj [("phase", .str "planning")]),
   some ⟨[⟨"cp_x", "2026-01-01T00:00:00", "manual", none, "cp_x.yaml"⟩],
     some "cp_x", none⟩,
   [("cp_x.yaml", c10Cp)], []⟩

/-- A checkpoint whose snapshot carries a `session` mapping but whose
stored fingerprint does not match any recomputation by `fun _ => "deadbeef"`. -/
def c7Cp : Checkpoint :=
  ⟨"cp_y", "2026-01-01T00:00:00", "manual", "d", none, some "0123456789abcdef",
   .obj [("phase", .str "review"), ("session", .obj [("id", .str "s")])],
   ⟨none, .num 0, []⟩, none⟩

/-- A directory holding `c7Cp` as its only checkpoint. -/
def c7Fs : Orch :=
  ⟨some (.obj [("phase", .str "planning")]),
   some ⟨[⟨"cp_y", "2026-01-01T00:00:00", "manual", none, "cp_y.yaml"⟩],
     some "cp_y", none⟩,
   [("cp_y.yaml", c7Cp)], []⟩

/-- A directory whose manifest has `latest = "cp_a"` and no retained
entries, ready for a fresh creation. -/
def c5Fs : Orch :=
  ⟨some (.obj [("phase", .str "planning")]),
   some ⟨[], some "cp_a", some 10⟩, [], []⟩

/-- The loop invariant of the topological peel: the queue and peeled
list are duplicate-free known nodes, the in-degree map equals the
original in-degrees minus the decrements from peeled sources, queued or
peeled nodes have non-positive count, and every known node whose count
reached zero is queued or peeled. -/
structure KahnInv (tasks : List VTask) (q : List Node) (deg : Node → Int)
    (sorted : List Node) : Prop where
  nodup : (q ++ sorted).Nodup
  sub : ∀ v ∈ q ++ sorted, v ∈ allIds tasks
  degEq : ∀ v, deg v = initDeg tasks v - (cntInto tasks sorted v : Int)
  nonpos : ∀ v ∈ q ++ sorted, deg v ≤ 0
  complete : ∀ v ∈ allIds tasks, deg v = 0 → v ∈ q ++ sorted

/-- The A↔B scenario: two tasks that hard-depend on each other. -/
def c2Doc : StateDoc :=
  ⟨some ⟨some "p", some "proj", none, none⟩, some (some "planning"),
   some [⟨some "A", some "task A", some "pending", none, none, none, ["c"], ["B"], []⟩,
         ⟨some "B", some "task B", some "pending", none, none, none, ["c"], ["A"], []⟩],
   some ⟨some "s", some "now", none⟩⟩

/-- A document with one task whose hard dependency names a task that
does not exist: the relation is acyclic, yet the checker fails. -/
def c3Doc : StateDoc :=
  ⟨some ⟨some "p", some "proj", none, none⟩, some (some "planning"),
   some [⟨some "A", some "task A", some "pending", none, none, none, ["c"], ["X"], []⟩],
   some ⟨some "s", some "now", none⟩⟩

/-- Two isolated tasks: the empty hard-dependency graph. -/
def c3AcyclicDoc : StateDoc :=
  ⟨some ⟨some "p", some "proj", none, none⟩, some (some "planning"),
   some [⟨some "A", some "task A", some "pending", none, none, none, ["c"], [], []⟩,
         ⟨some "B", some "task B", some "pending", none, none, none, ["c"], [], []⟩],
   some ⟨some "s", some "now", none⟩⟩

/-! ## C4: retention keeps the K most recent checkpoints -/

/-- The arguments of one `create` invocation (its wall-clock reading
and CLI parameters). -/
structure CreateArgs where
  time : DT
  trigger : String
  description : Option String
  task_id : Option String

/-- A sequence of `create_checkpoint` invocations, each run on the
directory state left by the previous one. -/
def createRun (h : String → String) (fs : Orch) : List CreateArgs → Orch
  | [] => fs
  | a :: rest =>
      createRun h (create_checkpoint h a.time fs a.trigger a.description a.task_id).1 rest

/-- The manifest summary entry a creation appends. -/
def entryOf (a : CreateArgs) : ManifestEntry :=
  ⟨generate_checkpoint_id a.time, isoTimestamp a.time, a.trigger, a.task_id,
   generate_checkpoint_id a.time ++ ".yaml"⟩

/-- The full record a creation writes to its storage unit (note:
without `parent`, see C5). -/
def storedOf (h : String → String) (state : JValue) (ctx : CpContext)
    (a : CreateArgs) : Checkpoint :=
  { id := generate_checkpoint_id a.time
    created := isoTimestamp a.time
    trigger := a.trigger
    description := if truthy a.description then a.description.getD ""
      else "Checkpoint triggered by " ++ a.trigger
    task_id := a.task_id
    state_hash := some (compute_state_hash h state)
    state_snapshot := state
    context := ctx
    parent := none }

/-- The storage-unit name of a creation. -/
def fileOf (a : CreateArgs) : String := generate_checkpoint_id a.time ++ ".yaml"

/-- The invariant of a creation run that started from an empty manifest
with retention `keep_last = K`: the directory always retains exactly
the entries and files of the last `K` (or fewer) creations, and
`latest` names the most recent one. -/
structure RunInv (h : String → String) (state : JValue) (ctx : CpContext)
    (K : Nat) (done : List CreateArgs) (fs : Orch) : Prop where
  state_eq : fs.stateFile = some state
  manifest_eq : fs.manifestFile = some
    ⟨(done.drop (done.length - K)).map entryOf,
     (done.getLast?).map (fun a => generate_checkpoint_id a.time),
     some K⟩
  files_eq : fs.cpFiles = (done.drop (done.length - K)).map
    (fun a => (fileOf a, storedOf h state ctx a))

def c4WArgs : List CreateArgs :=
  [⟨⟨2026, 1, 2, 3, 4, 5⟩, "manual", none, none⟩,
   ⟨⟨2026, 1, 2, 3, 4, 6⟩, "manual", none, none⟩,
   ⟨⟨2026, 1, 2, 3, 4, 7⟩, "manual", none, none⟩]

/-! ## Lemmas and claim theorems -/

/-- Two lists of fields that are permutations of each other, both sorted
by key, with no duplicate key, are equal. -/
lemma eq_of_perm_of_keySorted :
    ∀ (l₁ l₂ : List (String × JValue)), l₁.Perm l₂ →
    l₁.Pairwise (fun a b => a.1 ≤ b.1) →
    l₂.Pairwise (fun a b => a.1 ≤ b.1) →
    (l₁.map Prod.fst).Nodup → l₁ = l₂ := by
  intro l₁
  induction l₁ with
  | nil => intro l₂ hp _ _ _; exact (hp.symm.eq_nil).symm
  | cons a t₁ ih =>
    intro l₂ hp hs₁ hs₂ hn
    cases l₂ with
    | nil => exact absurd hp.eq_nil (by simp)
    | cons b t₂ =>
      have ha2 : a ∈ b :: t₂ := hp.subset (List.mem_cons_self a t₁)
      have hb1 : b ∈ a :: t₁ := hp.symm.subset (List.mem_cons_self b t₂)
      obtain ⟨hra, hpt₁⟩ := List.pairwise_cons.mp hs₁
      obtain ⟨hrb, hpt₂⟩ := List.pairwise_cons.mp hs₂
      have hab : a.1 ≤ b.1 := by
        rcases List.mem_cons.mp hb1 with h | h
        · exact le_of_eq (by rw [h])
        · exact hra b h
      have hba : b.1 ≤ a.1 := by
        rcases List.mem_cons.mp ha2 with h | h
        · exact le_of_eq (by rw [h])
        · exact hrb a h
      have hkey : a.1 = b.1 := le_antisymm hab hba
      have hn₂ : ((b :: t₂).map Prod.fst).Nodup := (hp.map Prod.fst).nodup_iff.mp hn
      have hae : a = b := by
        rcases List.mem_cons.mp ha2 with h | h
        · exact h
        · exfalso
          have hmem : b.1 ∈ t₂.map Prod.fst := by
            rw [← hkey]; exact List.mem_map_of_mem Prod.fst h
          have : b.1 ∉ t₂.map Prod.fst := by
            simpa using (List.nodup_cons.mp hn₂).1
          exact this hmem
      subst hae
      have htp : t₁.Perm t₂ := hp.cons_inv
      have hnt : (t₁.map Prod.fst).Nodup := by
        simpa using (List.nodup_cons.mp hn).2
      rw [ih t₂ htp hpt₁ hpt₂ hnt]

/-- `sortFields` depends only on the underlying key-value set: two
permutations of a duplicate-free field list sort to the same list. -/
lemma sortFields_eq_of_perm (f g : List (String × JValue)) (hp : f.Perm g)
    (hn : (f.map Prod.fst).Nodup) : sortFields f = sortFields g := by
  have hle : ∀ a b c : String × JValue,
      decide (a.1 ≤ b.1) = true → decide (b.1 ≤ c.1) = true →
      decide (a.1 ≤ c.1) = true := by
    intro a b c hab hbc
    exact decide_eq_true (le_trans (of_decide_eq_true hab) (of_decide_eq_true hbc))
  have htot : ∀ a b : String × JValue,
      (decide (a.1 ≤ b.1) || decide (b.1 ≤ a.1)) = true := by
    intro a b
    rcases le_total a.1 b.1 with h | h
    · simp [h]
    · simp [h]
  have hs₁ := List.sorted_mergeSort hle htot f
  have hs₂ := List.sorted_mergeSort hle htot g
  have hperm : (sortFields f).Perm (sortFields g) :=
    ((f.mergeSort_perm _).trans hp).trans (g.mergeSort_perm _).symm
  have hnf : ((sortFields f).map Prod.fst).Nodup :=
    ((f.mergeSort_perm _).map Prod.fst).nodup_iff.mpr hn
  exact eq_of_perm_of_keySorted _ _ hperm
    (hs₁.imp (fun h => of_decide_eq_true h))
    (hs₂.imp (fun h => of_decide_eq_true h)) hnf

lemma canonF_eq_map (fs : List (String × JValue)) :
    canonF fs = fs.map (fun p => (p.1, canonV p.2)) := by
  induction fs with
  | nil => rfl
  | cons p fs ih => cases p; simp [canonF, ih]

/-! ## C6: the Integrity Hasher is deterministic and canonical -/

/-- C6: The Integrity Hasher is deterministic and canonical: hashing the
same logical State Document twice — here, after re-serialization that
permuted the (duplicate-free) fields of the document mapping — yields
the same fingerprint for every digest function, because
`compute_state_hash` serializes with sorted keys. -/
theorem hash_stable_under_field_order (h : String → String)
    (f g : List (String × JValue)) (hp : f.Perm g)
    (hn : (f.map Prod.fst).Nodup) :
    compute_state_hash h (.obj f) = compute_state_hash h (.obj g) := by
  unfold compute_state_hash jdumps
  have hc : canonV (.obj f) = canonV (.obj g) := by
    show JValue.obj (sortFields (canonF f)) = JValue.obj (sortFields (canonF g))
    rw [canonF_eq_map, canonF_eq_map]
    have hkeys : ((f.map (fun p => (p.1, canonV p.2))).map Prod.fst).Nodup := by
      have : (f.map (fun p => (p.1, canonV p.2))).map Prod.fst = f.map Prod.fst := by
        simp
      rw [this]; exact hn
    rw [sortFields_eq_of_perm _ _ (hp.map _) hkeys]
  rw [hc]

/-- Witness for C6 at a concrete reordered document. -/
theorem hash_stable_under_field_order_witness :
    ([("phase", JValue.str "planning"), ("tasks", JValue.arr [])].Perm
      [("tasks", JValue.arr []), ("phase", JValue.str "planning")]) ∧
    (([("phase", JValue.str "planning"), ("tasks", JValue.arr [])].map
        (Prod.fst (β := JValue))).Nodup) ∧
    compute_state_hash (fun s => s)
        (.obj [("phase", JValue.str "planning"), ("tasks", JValue.arr [])]) =
      compute_state_hash (fun s => s)
        (.obj [("tasks", JValue.arr []), ("phase", JValue.str "planning")]) :=
  ⟨List.Perm.swap _ _ _, by decide,
    hash_stable_under_field_order (fun s => s) _ _ (List.Perm.swap _ _ _) (by decide)⟩

/-! ## C9: checkpoint ids — uniqueness and lexicographic order -/

lemma digitChar_lt_digitChar {a b : Nat} (hb : b < 10) (hab : a < b) :
    Nat.digitChar a < Nat.digitChar b := by
  have h : ∀ x y : Fin 10, x.1 < y.1 → Nat.digitChar x.1 < Nat.digitChar y.1 := by decide
  exact h ⟨a, lt_trans hab hb⟩ ⟨b, hb⟩ hab

lemma clex_append_left (p : List Char) {xs ys : List Char}
    (h : CLex xs ys) : CLex (p ++ xs) (p ++ ys) := by
  induction p with
  | nil => exact h
  | cons c p ih => exact List.Lex.cons ih

lemma clex_append_of_lt {xs ys : List Char} (h : CLex xs ys)
    (hlen : xs.length = ys.length) (u v : List Char) :
    CLex (xs ++ u) (ys ++ v) := by
  induction h with
  | nil => simp at hlen
  | @rel a l₁ b l₂ hab => exact List.Lex.rel hab
  | @cons a l₁ l₂ h ih => exact List.Lex.cons (ih (by simpa using hlen))

lemma pad2_lt {a b : Nat} (hb : b < 100) (hab : a < b) :
    CLex (pad2 a) (pad2 b) := by
  rcases Nat.lt_or_ge (a / 10) (b / 10) with h | h
  · exact List.Lex.rel (digitChar_lt_digitChar (by omega) h)
  · have hdeq : a / 10 = b / 10 :=
      le_antisymm (Nat.div_le_div_right (le_of_lt hab)) h
    have hmod : a % 10 < b % 10 := by omega
    unfold pad2
    rw [hdeq]
    exact List.Lex.cons (List.Lex.rel (digitChar_lt_digitChar (by omega) hmod))

lemma pad4_lt {a b : Nat} (hb : b < 10000) (hab : a < b) :
    CLex (pad4 a) (pad4 b) := by
  unfold pad4
  rcases Nat.lt_or_ge (a / 100) (b / 100) with h | h
  · exact clex_append_of_lt (pad2_lt (by omega) h) rfl _ _
  · have hdeq : a / 100 = b / 100 :=
      le_antisymm (Nat.div_le_div_right (le_of_lt hab)) h
    have hmod : a % 100 < b % 100 := by omega
    rw [hdeq]
    exact clex_append_left _ (pad2_lt (by omega) hmod)

/-- Strict chronological order of valid clock readings maps to strict
lexicographic order of `strftime("%Y%m%d_%H%M%S")` renderings. -/
lemma fmtTimestamp_lt {t u : DT} (hu : u.Valid)
    (h : DT.lt t u) : CLex (fmtTimestamp t).data (fmtTimestamp u).data := by
  obtain ⟨hy, _, hmo, _, hd, hh, hmi, hs⟩ := hu
  show CLex
    (pad4 t.year ++ (pad2 t.month ++ (pad2 t.day ++ '_' ::
      (pad2 t.hour ++ (pad2 t.minute ++ pad2 t.second)))))
    (pad4 u.year ++ (pad2 u.month ++ (pad2 u.day ++ '_' ::
      (pad2 u.hour ++ (pad2 u.minute ++ pad2 u.second)))))
  rcases h with h1 | ⟨e1, h2 | ⟨e2, h3 | ⟨e3, h4 | ⟨e4, h5 | ⟨e5, h6⟩⟩⟩⟩⟩
  · exact clex_append_of_lt (pad4_lt hy h1) rfl _ _
  · rw [e1]
    exact clex_append_left _
      (clex_append_of_lt (pad2_lt (by omega) h2) rfl _ _)
  · rw [e1, e2]
    refine clex_append_left _ (clex_append_left _ ?_)
    exact clex_append_of_lt (pad2_lt (by omega) h3) rfl _ _
  · rw [e1, e2, e3]
    refine clex_append_left _ (clex_append_left _ (clex_append_left _ ?_))
    exact List.Lex.cons (clex_append_of_lt (pad2_lt (by omega) h4) rfl _ _)
  · rw [e1, e2, e3, e4]
    refine clex_append_left _ (clex_append_left _ (clex_append_left _ ?_))
    refine List.Lex.cons (clex_append_left _ ?_)
    exact clex_append_of_lt (pad2_lt (by omega) h5) rfl _ _
  · rw [e1, e2, e3, e4, e5]
    refine clex_append_left _ (clex_append_left _ (clex_append_left _ ?_))
    refine List.Lex.cons (clex_append_left _ ?_)
    exact clex_append_left _ (pad2_lt (by omega) h6)

/-- Chronologically later valid clock readings give lexicographically
greater checkpoint ids. -/
lemma generate_checkpoint_id_lt {t u : DT} (hu : u.Valid)
    (h : DT.lt t u) :
    generate_checkpoint_id t < generate_checkpoint_id u := by
  refine (String.lt_iff_toList_lt).mpr ?_
  show CLex ("cp_" ++ fmtTimestamp t).data ("cp_" ++ fmtTimestamp u).data
  rw [String.data_append, String.data_append]
  exact clex_append_left _ (fmtTimestamp_lt hu h)

/-- C9 counterexample: `generate_checkpoint_id` reads the clock at
one-second resolution, so a sequence of two creations whose clock reads
fall within the same second yields identical (not pairwise unique) ids. -/
theorem checkpoint_ids_collide_within_second :
    ¬ (([⟨2026, 10, 12, 9, 30, 0⟩, ⟨2026, 10, 12, 9, 30, 0⟩] : List DT).map
        generate_checkpoint_id).Nodup := by decide

/-- C9 (amended): for every sequence of checkpoint creations whose
clock readings are strictly increasing at second resolution, the
generated ids are strictly increasing in lexicographic (string) order,
and in particular pairwise unique. -/
theorem checkpoint_ids_unique_and_sorted (ts : List DT)
    (hv : ∀ t ∈ ts, t.Valid) (hmono : ts.Pairwise DT.lt) :
    (ts.map generate_checkpoint_id).Pairwise (· < ·) ∧
    (ts.map generate_checkpoint_id).Nodup := by
  have hp : ts.Pairwise
      (fun a b => generate_checkpoint_id a < generate_checkpoint_id b) :=
    hmono.imp_of_mem (fun _ hb hab => generate_checkpoint_id_lt (hv _ hb) hab)
  refine ⟨(List.pairwise_map).mpr hp, (List.pairwise_map).mpr ?_⟩
  exact hp.imp (fun h => ne_of_lt h)

/-- Witness for C9 (amended) on a concrete strictly increasing pair of
clock readings. -/
theorem checkpoint_ids_unique_and_sorted_witness :
    (∀ t ∈ ([⟨2026, 1, 2, 3, 4, 5⟩, ⟨2026, 1, 2, 3, 4, 6⟩] : List DT), t.Valid) ∧
    (([⟨2026, 1, 2, 3, 4, 5⟩, ⟨2026, 1, 2, 3, 4, 6⟩] : List DT).Pairwise DT.lt) ∧
    ((([⟨2026, 1, 2, 3, 4, 5⟩, ⟨2026, 1, 2, 3, 4, 6⟩] : List DT).map
        generate_checkpoint_id).Pairwise (· < ·) ∧
      (([⟨2026, 1, 2, 3, 4, 5⟩, ⟨2026, 1, 2, 3, 4, 6⟩] : List DT).map
        generate_checkpoint_id).Nodup) :=
  ⟨by decide, by decide,
    checkpoint_ids_unique_and_sorted _ (by decide) (by decide)⟩

/-! ## C1: auto-repair and idempotence -/

/-- `truthy (some now)` for an actual timestamp string. -/
lemma truthy_some {now : String} (hnow : now ≠ "") :
    truthy (some now) = true := by
  simp [truthy]
  exact hnow

/-- The three backfill conditions of `repairTask` are mutually
exclusive (they test the same unchanged `status` against distinct
values), so the threaded lets collapse to a single case split. -/
lemma repairTask_cases (now : String) (t : VTask) :
    repairTask now t =
      if t.status = some "completed" ∧ ¬ truthy t.completed_at then
        ({ t with completed_at := some now }, ["Set completed_at for " ++ pyStr t.id])
      else if t.status = some "verified" ∧ ¬ truthy t.verified_at then
        ({ t with verified_at := some now }, ["Set verified_at for " ++ pyStr t.id])
      else if t.status = some "in_progress" ∧ ¬ truthy t.started_at then
        ({ t with started_at := some now }, ["Set started_at for " ++ pyStr t.id])
      else (t, []) := by
  unfold repairTask
  dsimp only
  by_cases h1 : t.status = some "completed" ∧ ¬ truthy t.completed_at
  · rw [if_pos h1]
    dsimp only
    have h2 : ¬ ((({ t with completed_at := some now } : VTask).status = some "verified")
        ∧ ¬ truthy ({ t with completed_at := some now } : VTask).verified_at) := by
      rintro ⟨hc, -⟩
      have : some "completed" = some "verified" := h1.1.symm.trans hc
      simp at this
    rw [if_neg h2]
    dsimp only
    have h3 : ¬ ((({ t with completed_at := some now } : VTask).status = some "in_progress")
        ∧ ¬ truthy ({ t with completed_at := some now } : VTask).started_at) := by
      rintro ⟨hc, -⟩
      have : some "completed" = some "in_progress" := h1.1.symm.trans hc
      simp at this
    rw [if_neg h3, if_pos h1]
    rfl
  · rw [if_neg h1]
    dsimp only
    by_cases h2 : t.status = some "verified" ∧ ¬ truthy t.verified_at
    · rw [if_pos h2]
      dsimp only
      have h3 : ¬ ((({ t with verified_at := some now } : VTask).status = some "in_progress")
          ∧ ¬ truthy ({ t with verified_at := some now } : VTask).started_at) := by
        rintro ⟨hc, -⟩
        have : some "verified" = some "in_progress" := h2.1.symm.trans hc
        simp at this
      rw [if_neg h3, if_neg h1, if_pos h2]
      rfl
    · rw [if_neg h2]
      dsimp only
      by_cases h3 : t.status = some "in_progress" ∧ ¬ truthy t.started_at
      · rw [if_pos h3, if_neg h1, if_neg h2]
        rfl
      · rw [if_neg h3, if_neg h1, if_neg h2]
        rfl

/-- Repairing an already-repaired task changes nothing and records
nothing (the pass populated exactly the timestamp its status requires,
with a non-empty string). -/
lemma repairTask_idem {now : String} (hnow : now ≠ "") (t : VTask) :
    repairTask now ((repairTask now t).1) = ((repairTask now t).1, []) := by
  rw [repairTask_cases now t]
  split_ifs with c1 c2 c3
  · simp [repairTask_cases, c1.1, truthy, hnow]
  · simp [repairTask_cases, c2.1, truthy, hnow]
  · simp [repairTask_cases, c3.1, truthy, hnow]
  · rw [repairTask_cases]
    rw [if_neg c1, if_neg c2, if_neg c3]

lemma repaired_flatMap_nil {now : String} (hnow : now ≠ "") (l : List VTask) :
    ((((l.map (repairTask now)).map Prod.fst).map (repairTask now)).flatMap Prod.snd) = [] := by
  induction l with
  | nil => rfl
  | cons t l ih =>
      simp only [List.map_cons, List.flatMap_cons, repairTask_idem hnow, ih]
      rfl

lemma repaired_map_fst {now : String} (hnow : now ≠ "") (l : List VTask) :
    ((((l.map (repairTask now)).map Prod.fst).map (repairTask now)).map Prod.fst) =
      (l.map (repairTask now)).map Prod.fst := by
  induction l with
  | nil => rfl
  | cons t l ih =>
      simp only [List.map_cons, repairTask_idem hnow, ih]

/-- C1 counterexample: on a document with a `session` section, a second
application of `auto_repair` still reports a change (it re-stamps
`session.last_updated` unconditionally), so the repair list of the
second application is not empty. -/
theorem auto_repair_not_idempotent :
    (auto_repair "2026-10-12T09:30:00"
        ((auto_repair "2026-10-12T09:30:00" c1Doc [] []).1) [] []).2 ≠ [] := by
  decide

/-- C1 (amended): the task-timestamp backfills of `auto_repair` are
idempotent — a second application performs no task repairs and leaves
the document unchanged — but its repair list is empty only for
documents without a `session` section; with one, the second application
reports exactly the unconditional `session.last_updated` refresh. -/
theorem auto_repair_second_application (now : String) (hnow : now ≠ "")
    (d : StateDoc) (e₁ w₁ e₂ w₂ : List String) :
    (auto_repair now ((auto_repair now d e₁ w₁).1) e₂ w₂).2 =
      (if d.session.isSome then ["Updated session.last_updated"] else []) ∧
    (auto_repair now ((auto_repair now d e₁ w₁).1) e₂ w₂).1 =
      (auto_repair now d e₁ w₁).1 := by
  obtain ⟨proj, ph, tasks, sess⟩ := d
  rcases tasks with _ | l <;> rcases sess with _ | s <;>
    simp [auto_repair, repaired_flatMap_nil hnow, repaired_map_fst hnow] <;>
    exact ⟨fun a _ => by rw [repairTask_idem hnow],
           fun a _ => by rw [repairTask_idem hnow]⟩

/-- Witness for C1 (amended) on a concrete document with a session. -/
theorem auto_repair_second_application_witness :
    ("2026-10-12T09:30:00" ≠ "") ∧
    ((auto_repair "2026-10-12T09:30:00"
        ((auto_repair "2026-10-12T09:30:00" c1Doc [] []).1) [] []).2 =
      (if c1Doc.session.isSome then ["Updated session.last_updated"] else []) ∧
     (auto_repair "2026-10-12T09:30:00"
        ((auto_repair "2026-10-12T09:30:00" c1Doc [] []).1) [] []).1 =
      (auto_repair "2026-10-12T09:30:00" c1Doc [] []).1) :=
  ⟨by decide, auto_repair_second_application "2026-10-12T09:30:00" (by decide) c1Doc [] [] [] []⟩

/-! ## C8: unresolvable restore targets -/

/-- C8: whenever the restore target cannot be resolved — no manifest,
`--latest` with no (truthy) latest recorded, no (truthy) id given, or a
resolved id absent from the manifest — `restore_checkpoint` reports a
not-found / must-specify error and leaves the whole directory (in
particular the live state document) unmodified. -/
theorem restore_unresolved_leaves_state_unmodified (h : String → String) (t : DT)
    (fs : Orch) (cid : Option String) (latest : Bool)
    (hcase :
      fs.manifestFile = none ∨
      (∃ m, fs.manifestFile = some m ∧ latest = true ∧ truthy m.latest = false) ∨
      (fs.manifestFile.isSome ∧ latest = false ∧ truthy cid = false) ∨
      (∃ m c, fs.manifestFile = some m ∧
        ((latest = true ∧ truthy m.latest = true ∧ m.latest.getD "" = c) ∨
         (latest = false ∧ truthy cid = true ∧ cid.getD "" = c)) ∧
        m.checkpoints.find? (fun cp => cp.id = c) = none)) :
    (restore_checkpoint h t fs cid latest).1 = fs ∧
    ∃ e, (restore_checkpoint h t fs cid latest).2.2 = .error e ∧
      (e = .noManifest ∨ e = .noLatest ∨ e = .mustSpecify ∨ ∃ c, e = .notFound c) := by
  rcases hcase with hm | ⟨m, hm, hl, ht⟩ | ⟨hm, hl, hc⟩ | ⟨m, c, hm, hres, hfind⟩
  · simp [restore_checkpoint, hm]
  · simp [restore_checkpoint, hm, hl, ht]
  · obtain ⟨m, hm2⟩ := Option.isSome_iff_exists.mp hm
    simp [restore_checkpoint, hm2, hl, hc]
  · rcases hres with ⟨hl, ht, hcv⟩ | ⟨hl, ht, hcv⟩ <;>
      simp [restore_checkpoint, hm, hl, ht, hcv, hfind]

/-- Witness for C8: restore with no manifest reports not-found and
leaves the directory untouched. -/
theorem restore_unresolved_witness :
    (c8Fs.manifestFile = none ∨
      (∃ m, c8Fs.manifestFile = some m ∧ true = true ∧ truthy m.latest = false) ∨
      (c8Fs.manifestFile.isSome ∧ true = false ∧ truthy (none : Option String) = false) ∨
      (∃ m c, c8Fs.manifestFile = some m ∧
        ((true = true ∧ truthy m.latest = true ∧ m.latest.getD "" = c) ∨
         (true = false ∧ truthy (none : Option String) = true ∧
          (none : Option String).getD "" = c)) ∧
        m.checkpoints.find? (fun cp => cp.id = c) = none)) ∧
    ((restore_checkpoint (fun s => s) ⟨2026, 1, 2, 3, 4, 5⟩ c8Fs none true).1 = c8Fs ∧
     ∃ e, (restore_checkpoint (fun s => s) ⟨2026, 1, 2, 3, 4, 5⟩ c8Fs none true).2.2 =
        .error e ∧
      (e = .noManifest ∨ e = .noLatest ∨ e = .mustSpecify ∨ ∃ c, e = .notFound c)) :=
  ⟨Or.inl rfl,
    restore_unresolved_leaves_state_unmodified (fun s => s) ⟨2026, 1, 2, 3, 4, 5⟩
      c8Fs none true (Or.inl rfl)⟩

/-! ## C10: the non-atomic restore failure path -/

/-- C10: restoring a resolvable checkpoint whose snapshot has no
`session` mapping overwrites the live state document with the snapshot
and only then fails (the `state_snapshot["session"]` subscript raises),
so the error is reported with the live document already changed and the
`last_updated`/notes stamping never applied. -/
theorem restore_without_session_not_atomic (h : String → String) (t : DT)
    (fs : Orch) (cid : String) (m : Manifest) (entry : ManifestEntry)
    (fent : String × Checkpoint) (sf : List (String × JValue))
    (hm : fs.manifestFile = some m)
    (hcid : cid ≠ "")
    (hfind : m.checkpoints.find? (fun cp => cp.id = cid) = some entry)
    (hfile : fs.cpFiles.find? (fun p => p.1 = entry.file) = some fent)
    (hsnap : fent.2.state_snapshot = .obj sf)
    (hsess : sf.find? (fun p => p.1 = "session") = none) :
    (restore_checkpoint h t fs (some cid) false).2.2 = .error .keyError ∧
    (restore_checkpoint h t fs (some cid) false).1.stateFile = some fent.2.state_snapshot := by
  simp [restore_checkpoint, hm, truthy, hcid, hfind, hfile, hsnap, hsess]

/-- Witness for C10 at the concrete directory `c10Fs`. -/
theorem restore_without_session_not_atomic_witness :
    (c10Fs.manifestFile =
      some ⟨[⟨"cp_x", "2026-01-01T00:00:00", "manual", none, "cp_x.yaml"⟩],
        some "cp_x", none⟩ ∧
     ("cp_x" : String) ≠ "" ∧
     (⟨[⟨"cp_x", "2026-01-01T00:00:00", "manual", none, "cp_x.yaml"⟩],
        some "cp_x", none⟩ : Manifest).checkpoints.find?
          (fun cp => cp.id = "cp_x") =
        some ⟨"cp_x", "2026-01-01T00:00:00", "manual", none, "cp_x.yaml"⟩ ∧
     c10Fs.cpFiles.find?
        (fun p => p.1 = (⟨"cp_x", "2026-01-01T00:00:00", "manual", none,
          "cp_x.yaml"⟩ : ManifestEntry).file) = some ("cp_x.yaml", c10Cp) ∧
     ("cp_x.yaml", c10Cp).2.state_snapshot = .obj [("phase", .str "review")] ∧
     ([("phase", JValue.str "review")].find? (fun p => p.1 = "session")) = none) ∧
    ((restore_checkpoint (fun s => s) ⟨2026, 1, 2, 3, 4, 5⟩ c10Fs
        (some "cp_x") false).2.2 = .error .keyError ∧
     (restore_checkpoint (fun s => s) ⟨2026, 1, 2, 3, 4, 5⟩ c10Fs
        (some "cp_x") false).1.stateFile = some ("cp_x.yaml", c10Cp).2.state_snapshot) :=
  ⟨⟨rfl, by decide, rfl, rfl, rfl, rfl⟩,
    restore_without_session_not_atomic (fun s => s) ⟨2026, 1, 2, 3, 4, 5⟩ c10Fs
      "cp_x" _ _ _ _ rfl (by decide) rfl rfl rfl rfl⟩

/-! ## C7: fingerprint mismatch on restore -/

/-- C7 counterexample: a restore that recomputes a fingerprint different
from the stored one (so the mismatch warning is printed) and still does
not complete — the snapshot has no `session` mapping, so the operation
raises after the overwrite.  The claim's "still completes" is therefore
false as a universal statement. -/
theorem restore_mismatch_can_abort :
    ((restore_checkpoint (fun _ => "deadbeef") ⟨2026, 1, 2, 3, 4, 5⟩ c10Fs
        none true).2.1 =
      ["Warning: Checkpoint hash mismatch. Data may be corrupted."]) ∧
    (restore_checkpoint (fun _ => "deadbeef") ⟨2026, 1, 2, 3, 4, 5⟩ c10Fs
        none true).2.2 = .error .keyError :=
  ⟨rfl, rfl⟩

/-- C7 (amended): on every restore of a resolvable checkpoint whose
snapshot carries a `session` mapping, a fingerprint mismatch surfaces
the corruption warning but the restore still completes: the live state
document is overwritten with the (session-stamped) snapshot and the
operation returns a summary rather than an error. -/
theorem restore_mismatch_warns_and_completes (h : String → String) (t : DT)
    (fs : Orch) (cid : String) (m : Manifest) (entry : ManifestEntry)
    (fent : String × Checkpoint) (sf sess : List (String × JValue)) (e : String)
    (hm : fs.manifestFile = some m)
    (hcid : cid ≠ "")
    (hfind : m.checkpoints.find? (fun cp => cp.id = cid) = some entry)
    (hfile : fs.cpFiles.find? (fun p => p.1 = entry.file) = some fent)
    (hsnap : fent.2.state_snapshot = .obj sf)
    (hsess : (sf.find? (fun p => p.1 = "session")).map Prod.snd = some (.obj sess))
    (hhash : fent.2.state_hash = some e) (hne : e ≠ "")
    (hmis : compute_state_hash h fent.2.state_snapshot ≠ e) :
    (restore_checkpoint h t fs (some cid) false).2.1 =
      ["Warning: Checkpoint hash mismatch. Data may be corrupted."] ∧
    (∃ r, (restore_checkpoint h t fs (some cid) false).2.2 = .ok r ∧
      r.restored_from = cid) ∧
    (restore_checkpoint h t fs (some cid) false).1.stateFile =
      some (.obj (JValue.setField sf "session" (.obj (JValue.setField
        (JValue.setField sess "last_updated" (.str (isoTimestamp t)))
        "notes" (.str ("Restored from checkpoint " ++ cid)))))) := by
  rw [hsnap] at hmis
  simp [restore_checkpoint, hm, truthy, hcid, hfind, hfile, hsnap, hsess, hhash, hne, hmis]

/-- Witness for C7 (amended) at the concrete directory `c7Fs`. -/
theorem restore_mismatch_warns_and_completes_witness :
    (c7Fs.manifestFile =
      some ⟨[⟨"cp_y", "2026-01-01T00:00:00", "manual", none, "cp_y.yaml"⟩],
        some "cp_y", none⟩ ∧
     ("cp_y" : String) ≠ "" ∧
     compute_state_hash (fun _ => "deadbeef") ("cp_y.yaml", c7Cp).2.state_snapshot ≠
       "0123456789abcdef") ∧
    ((restore_checkpoint (fun _ => "deadbeef") ⟨2026, 1, 2, 3, 4, 5⟩ c7Fs
        (some "cp_y") false).2.1 =
      ["Warning: Checkpoint hash mismatch. Data may be corrupted."] ∧
     (∃ r, (restore_checkpoint (fun _ => "deadbeef") ⟨2026, 1, 2, 3, 4, 5⟩ c7Fs
        (some "cp_y") false).2.2 = .ok r ∧ r.restored_from = "cp_y") ∧
     (restore_checkpoint (fun _ => "deadbeef") ⟨2026, 1, 2, 3, 4, 5⟩ c7Fs
        (some "cp_y") false).1.stateFile =
      some (.obj (JValue.setField [("phase", .str "review"),
          ("session", .obj [("id", .str "s")])] "session"
        (.obj (JValue.setField (JValue.setField [("id", JValue.str "s")]
            "last_updated" (.str (isoTimestamp ⟨2026, 1, 2, 3, 4, 5⟩)))
          "notes" (.str ("Restored from checkpoint " ++ "cp_y"))))))) :=
  ⟨⟨rfl, by decide, by decide⟩,
    restore_mismatch_warns_and_completes (fun _ => "deadbeef") ⟨2026, 1, 2, 3, 4, 5⟩
      c7Fs "cp_y" _ _ _ _ _ "0123456789abcdef" rfl (by decide) rfl rfl rfl rfl rfl
      (by decide) (by decide)⟩

/-! ## C5: the `parent` chain is never persisted -/

lemma find?_map_overwrite (name : String) (cp : Checkpoint) :
    ∀ (files : List (String × Checkpoint)), files.any (fun p => p.1 = name) →
    (files.map (fun p => if p.1 = name then (name, cp) else p)).find?
      (fun p => p.1 = name) = some (name, cp) := by
  intro files
  induction files with
  | nil => intro hany; simp at hany
  | cons q files ih =>
      intro hany
      by_cases hq : q.1 = name
      · simp [hq]
      · simp only [List.map_cons, if_neg hq]
        rw [List.find?_cons_of_neg _ (by simpa using hq)]
        refine ih ?_
        simpa [hq] using hany

lemma find?_append_new (name : String) (cp : Checkpoint) :
    ∀ (files : List (String × Checkpoint)), ¬ files.any (fun p => p.1 = name) →
    (files ++ [(name, cp)]).find? (fun p => p.1 = name) = some (name, cp) := by
  intro files
  induction files with
  | nil => intro _; simp
  | cons q files ih =>
      intro hany
      have hq : ¬ q.1 = name := by
        intro hc; exact hany (by simp [hc])
      simp only [List.cons_append]
      rw [List.find?_cons_of_neg _ (by simpa using hq)]
      exact ih (fun hc => hany (by simp [List.any_cons]; right; simpa using hc))

/-- After `save_yaml_file(checkpoint_path, checkpoint)`, looking the file
up by name yields exactly the record just written. -/
lemma find?_writeCpFile (files : List (String × Checkpoint)) (name : String)
    (cp : Checkpoint) :
    (writeCpFile files name cp).find? (fun p => p.1 = name) = some (name, cp) := by
  unfold writeCpFile
  split_ifs with hany
  · exact find?_map_overwrite name cp files hany
  · exact find?_append_new name cp files hany

lemma find?_filter_ne (f name : String) (hne : f ≠ name) :
    ∀ (files : List (String × Checkpoint)),
    (files.filter (fun p => p.1 ≠ f)).find? (fun p => p.1 = name) =
      files.find? (fun p => p.1 = name) := by
  intro files
  induction files with
  | nil => rfl
  | cons q files ih =>
      simp only [List.filter_cons]
      by_cases hq : q.1 = name
      · rw [if_pos (by simp [hq, Ne.symm hne])]
        rw [List.find?_cons_of_pos _ (by simpa using hq),
          List.find?_cons_of_pos _ (by simpa using hq)]
      · by_cases hf : q.1 = f
        · rw [if_neg (by simp [hf])]
          rw [ih, List.find?_cons_of_neg _ (by simpa using hq)]
        · rw [if_pos (by simp [hf])]
          rw [List.find?_cons_of_neg _ (by simpa using hq),
            List.find?_cons_of_neg _ (by simpa using hq)]
          exact ih

lemma find?_foldl_delete (name : String) :
    ∀ (rs : List ManifestEntry) (files : List (String × Checkpoint)),
    (∀ r ∈ rs, r.file ≠ name) →
    ((rs.foldl (fun fs cp => deleteCpFile fs cp.file) files).find?
      (fun p => p.1 = name)) = files.find? (fun p => p.1 = name) := by
  intro rs
  induction rs with
  | nil => intro files _; rfl
  | cons r rs ih =>
      intro files hr
      simp only [List.foldl_cons]
      rw [ih _ (fun x hx => hr x (List.mem_cons_of_mem _ hx))]
      exact find?_filter_ne r.file name (hr r (List.mem_cons_self _ _)) files

/-- `l[:-k]` of an extended list never reaches the new final element. -/
lemma pyDropLast_append_subset {α : Type} (l : List α) (x : α) (k : Nat) :
    ∀ r ∈ pyDropLast (l ++ [x]) k, r ∈ l := by
  intro r hr
  unfold pyDropLast at hr
  split_ifs at hr with hk
  · simp at hr
  · have hlen : (l ++ [x]).length - k ≤ l.length := by
      simp only [List.length_append, List.length_cons, List.length_nil]
      omega
    rw [List.take_append_of_le_length hlen] at hr
    exact List.mem_of_mem_take hr

/-- Retention eviction does not disturb lookups of files it does not
remove. -/
lemma find?_enforce_retention (m : Manifest) (files : List (String × Checkpoint))
    (name : String)
    (hfr : ∀ e ∈ pyDropLast m.checkpoints (m.keep_last.getD 10), e.file ≠ name) :
    ((enforce_retention m files).2).find? (fun p => p.1 = name) =
      files.find? (fun p => p.1 = name) := by
  unfold enforce_retention
  dsimp only
  split_ifs with hc
  · exact find?_foldl_delete name _ _ hfr
  · rfl

/-- C5: `create_checkpoint` sets `parent` on the in-memory checkpoint
dict only after the checkpoint file has been written, so while the
returned dict carries `parent = P` (the manifest's previous `latest`),
the record persisted to the checkpoint's own storage unit carries no
`parent` at all — the backward chain claimed for the stored record is
never persisted. -/
theorem create_parent_not_persisted (h : String → String) (t : DT) (fs : Orch)
    (trigger : String) (description task_id : Option String)
    (state : JValue) (ctx : CpContext) (m : Manifest) (p : String)
    (hstate : fs.stateFile = some state)
    (hctx : buildContext state = .ok ctx)
    (hm : fs.manifestFile = some m)
    (hlatest : m.latest = some p) (hp : p ≠ "")
    (hfresh : ∀ e ∈ m.checkpoints, e.file ≠ generate_checkpoint_id t ++ ".yaml") :
    (∃ cp, (create_checkpoint h t fs trigger description task_id).2 = .ok cp ∧
      cp.parent = some p) ∧
    (((create_checkpoint h t fs trigger description task_id).1.cpFiles.find?
        (fun q => q.1 = generate_checkpoint_id t ++ ".yaml")).map
      (fun q => (q.1, q.2.parent, q.2.id))) =
      some (generate_checkpoint_id t ++ ".yaml", none, generate_checkpoint_id t) := by
  unfold create_checkpoint
  simp only [hstate, hctx, hm, Option.getD_some]
  constructor
  · refine ⟨_, rfl, ?_⟩
    simp [hlatest, truthy, hp]
  · rw [find?_enforce_retention _ _ _ ?_]
    · rw [find?_writeCpFile]
      rfl
    · intro e he
      exact hfresh e (pyDropLast_append_subset _ _ _ e he)

/-- Witness for C5 at the concrete directory `c5Fs`. -/
theorem create_parent_not_persisted_witness :
    (c5Fs.stateFile = some (.obj [("phase", .str "planning")]) ∧
     buildContext (.obj [("phase", .str "planning")]) =
       .ok ⟨some (.str "planning"), .num 0, []⟩ ∧
     c5Fs.manifestFile = some ⟨[], some "cp_a", some 10⟩ ∧
     (⟨[], some "cp_a", some 10⟩ : Manifest).latest = some "cp_a" ∧
     ("cp_a" : String) ≠ "") ∧
    ((∃ cp, (create_checkpoint (fun s => s) ⟨2026, 1, 2, 3, 4, 5⟩ c5Fs
        "manual" none none).2 = .ok cp ∧ cp.parent = some "cp_a") ∧
     (((create_checkpoint (fun s => s) ⟨2026, 1, 2, 3, 4, 5⟩ c5Fs
          "manual" none none).1.cpFiles.find?
        (fun q => q.1 = generate_checkpoint_id ⟨2026, 1, 2, 3, 4, 5⟩ ++ ".yaml")).map
      (fun q => (q.1, q.2.parent, q.2.id))) =
      some (generate_checkpoint_id ⟨2026, 1, 2, 3, 4, 5⟩ ++ ".yaml", none,
        generate_checkpoint_id ⟨2026, 1, 2, 3, 4, 5⟩)) :=
  ⟨⟨rfl, rfl, rfl, rfl, by decide⟩,
    create_parent_not_persisted (fun s => s) ⟨2026, 1, 2, 3, 4, 5⟩ c5Fs
      "manual" none none (.obj [("phase", .str "planning")])
      ⟨some (.str "planning"), .num 0, []⟩ ⟨[], some "cp_a", some 10⟩ "cp_a"
      rfl rfl rfl rfl (by decide) (by simp)⟩

/-! ## C2/C3: the Dependency Graph Checker

Specification lemmas for the inner neighbour loop (`processNeighbors`),
then the loop invariant of the topological peel, then the two claim
theorems: a cycle makes the peel report exactly its residue, and an
acyclic closed graph peels completely. -/

lemma pn_deg : ∀ (ns : List Node) (deg : Node → Int) (q : List Node) (v : Node),
    (processNeighbors ns deg q).1 v = deg v - (ns.count v : Int) := by
  intro ns
  induction ns with
  | nil => intro deg q v; simp [processNeighbors]
  | cons n ns ih =>
      intro deg q v
      unfold processNeighbors
      dsimp only
      rw [ih]
      by_cases hv : v = n
      · subst hv
        rw [if_pos rfl, List.count_cons_self]
        push_cast
        ring
      · rw [if_neg hv, List.count_cons_of_ne (by simpa using hv)]

lemma pn_queue_mono : ∀ (ns : List Node) (deg : Node → Int) (q : List Node)
    (x : Node), x ∈ q → x ∈ (processNeighbors ns deg q).2 := by
  intro ns
  induction ns with
  | nil => intro _ _ _ hx; exact hx
  | cons n ns ih =>
      intro deg q x hx
      unfold processNeighbors
      dsimp only
      split_ifs with hd
      · exact ih _ _ _ (List.mem_append_left _ hx)
      · exact ih _ _ _ hx

lemma pn_queue_src : ∀ (ns : List Node) (deg : Node → Int) (q : List Node)
    (x : Node), x ∈ (processNeighbors ns deg q).2 → x ∈ q ∨ x ∈ ns := by
  intro ns
  induction ns with
  | nil => intro _ _ _ hx; exact Or.inl hx
  | cons n ns ih =>
      intro deg q x hx
      unfold processNeighbors at hx
      dsimp only at hx
      split_ifs at hx with hd
      · rcases ih _ _ _ hx with hq | hns
        · rcases List.mem_append.mp hq with hq | hn
          · exact Or.inl hq
          · exact Or.inr (by simpa using Or.inl (List.mem_singleton.mp hn))
        · exact Or.inr (List.mem_cons_of_mem _ hns)
      · rcases ih _ _ _ hx with hq | hns
        · exact Or.inl hq
        · exact Or.inr (List.mem_cons_of_mem _ hns)

lemma pn_queue_new_pos : ∀ (ns : List Node) (deg : Node → Int) (q : List Node)
    (x : Node), x ∈ (processNeighbors ns deg q).2 → x ∉ q → 0 < deg x := by
  intro ns
  induction ns with
  | nil => intro _ _ _ hx hq; exact absurd hx hq
  | cons n ns ih =>
      intro deg q x hx hq
      unfold processNeighbors at hx
      dsimp only at hx
      split_ifs at hx with hd
      · by_cases hxq : x ∈ q ++ [n]
        · rcases List.mem_append.mp hxq with h | h
          · exact absurd h hq
          · have hxn : x = n := List.mem_singleton.mp h
            subst hxn
            omega
        · have := ih _ _ _ hx hxq
          by_cases hv : x = n
          · subst hv; simp at this; omega
          · simpa [hv] using this
      · have := ih _ _ _ hx hq
        by_cases hv : x = n
        · subst hv; simp at this; omega
        · simpa [hv] using this

/-- A node whose in-degree stays at least one throughout the neighbour
loop is never enqueued by it. -/
lemma pn_avoid : ∀ (ns : List Node) (deg : Node → Int) (q : List Node)
    (s : Node), s ∉ q → 1 ≤ deg s - (ns.count s : Int) →
    s ∉ (processNeighbors ns deg q).2 := by
  intro ns
  induction ns with
  | nil => intro _ _ _ hq _; exact hq
  | cons n ns ih =>
      intro deg q s hq hb
      unfold processNeighbors
      dsimp only
      by_cases hv : s = n
      · subst hv
        rw [List.count_cons_self] at hb
        push_cast at hb
        have hd : ¬ (deg s - 1 = 0) := by omega
        rw [if_neg hd]
        refine ih _ _ _ hq ?_
        rw [if_pos rfl]
        omega
      · rw [List.count_cons_of_ne (by simpa using hv)] at hb
        split_ifs with hd
        · refine ih _ _ _ ?_ ?_
          · intro hc
            rcases List.mem_append.mp hc with h | h
            · exact hq h
            · exact hv (List.mem_singleton.mp h)
          · rw [if_neg hv]; exact hb
        · refine ih _ _ _ hq ?_
          rw [if_neg hv]; exact hb

/-- A node with remaining occurrences whose in-degree ends the loop at
zero is enqueued by its last decrement. -/
lemma pn_complete : ∀ (ns : List Node) (deg : Node → Int) (q : List Node)
    (v : Node), 0 < ns.count v → deg v - (ns.count v : Int) = 0 →
    v ∈ (processNeighbors ns deg q).2 := by
  intro ns
  induction ns with
  | nil => intro _ _ _ hc _; simp at hc
  | cons n ns ih =>
      intro deg q v hc hz
      unfold processNeighbors
      dsimp only
      by_cases hv : v = n
      · subst hv
        rw [List.count_cons_self] at hc hz
        push_cast at hz
        by_cases hrest : 0 < ns.count v
        · refine ih _ _ _ hrest ?_
          rw [if_pos rfl]
          omega
        · have hcnt : ns.count v = 0 := by omega
          have hd : deg v - 1 = 0 := by
            rw [hcnt] at hz; push_cast at hz; omega
          rw [if_pos hd]
          exact pn_queue_mono _ _ _ _ (List.mem_append_right _ (List.mem_singleton_self v))
      · rw [List.count_cons_of_ne (by simpa using hv)] at hc hz
        have hnext : ∀ q, v ∈ (processNeighbors ns
            (fun x => if x = n then deg n - 1 else deg x) q).2 := by
          intro q
          refine ih _ _ _ hc ?_
          rw [if_neg hv]
          exact hz
        split_ifs <;> exact hnext _

/-- Decrements leave the queue's members non-positive, and newly
enqueued members end at zero. -/
lemma pn_nonpos : ∀ (ns : List Node) (deg : Node → Int) (q : List Node),
    (∀ x ∈ q, deg x ≤ 0) →
    ∀ x ∈ (processNeighbors ns deg q).2, (processNeighbors ns deg q).1 x ≤ 0 := by
  intro ns
  induction ns with
  | nil => intro deg q hq x hx; exact hq x hx
  | cons n ns ih =>
      intro deg q hq x hx
      unfold processNeighbors at hx ⊢
      dsimp only at hx ⊢
      split_ifs at hx ⊢ with hd
      · refine ih _ _ ?_ x hx
        intro y hy
        rcases List.mem_append.mp hy with h | h
        · by_cases hv : y = n
          · subst hv; rw [if_pos rfl]; omega
          · rw [if_neg hv]; exact hq y h
        · have : y = n := List.mem_singleton.mp h
          subst this
          rw [if_pos rfl]; omega
      · refine ih _ _ ?_ x hx
        intro y hy
        by_cases hv : y = n
        · subst hv; rw [if_pos rfl]
          have := hq y hy
          omega
        · rw [if_neg hv]; exact hq y hy

/-- The neighbour loop preserves queue duplicate-freedom. -/
lemma pn_nodup : ∀ (ns : List Node) (deg : Node → Int) (q : List Node),
    (∀ x ∈ q, deg x ≤ 0) → q.Nodup → (processNeighbors ns deg q).2.Nodup := by
  intro ns
  induction ns with
  | nil => intro _ _ _ hq; exact hq
  | cons n ns ih =>
      intro deg q hle hq
      unfold processNeighbors
      dsimp only
      split_ifs with hd
      · refine ih _ _ ?_ ?_
        · intro y hy
          rcases List.mem_append.mp hy with h | h
          · by_cases hv : y = n
            · subst hv; rw [if_pos rfl]; omega
            · rw [if_neg hv]; exact hle y h
          · have : y = n := List.mem_singleton.mp h
            subst this; rw [if_pos rfl]; omega
        · have hn : n ∉ q := by
            intro hc
            have := hle n hc
            omega
          simpa [List.nodup_append] using ⟨hq, hn⟩
      · refine ih _ _ ?_ hq
        intro y hy
        by_cases hv : y = n
        · subst hv; rw [if_pos rfl]
          have := hle y hy
          omega
        · rw [if_neg hv]; exact hle y hy

lemma count_filter_map : ∀ (es : List (Node × Node)) (u v : Node),
    ((es.filter (fun e => e.1 = u)).map Prod.snd).count v =
      (es.filter (fun e => e.1 = u ∧ e.2 = v)).length := by
  intro es u v
  induction es with
  | nil => rfl
  | cons e es ih =>
      by_cases h1 : e.1 = u <;> by_cases h2 : e.2 = v <;>
        simp [List.filter_cons, h1, h2, List.count_cons, ih]

lemma cnt_split : ∀ (es : List (Node × Node)) (sorted : List Node) (c v : Node),
    c ∉ sorted →
    (es.filter (fun e => e.1 ∈ sorted ++ [c] ∧ e.2 = v)).length =
      (es.filter (fun e => e.1 ∈ sorted ∧ e.2 = v)).length +
      (es.filter (fun e => e.1 = c ∧ e.2 = v)).length := by
  intro es sorted c v hc
  induction es with
  | nil => rfl
  | cons e es ih =>
      by_cases h1 : e.1 ∈ sorted <;> by_cases h2 : e.1 = c <;>
        by_cases h3 : e.2 = v <;>
        simp_all [List.filter_cons, List.mem_append] <;> omega

lemma cnt_le : ∀ (es : List (Node × Node)) (L : List Node) (v : Node),
    (es.filter (fun e => e.1 ∈ L ∧ e.2 = v)).length ≤
      (es.filter (fun e => e.2 = v)).length := by
  intro es L v
  induction es with
  | nil => exact le_refl _
  | cons e es ih =>
      by_cases h1 : e.1 ∈ L <;> by_cases h3 : e.2 = v <;>
        (simp_all [List.filter_cons]; try omega)

lemma cnt_disjoint_add_le : ∀ (es : List (Node × Node)) (L S : List Node) (v : Node),
    (∀ x ∈ L, x ∉ S) →
    (es.filter (fun e => e.1 ∈ L ∧ e.2 = v)).length +
      (es.filter (fun e => e.1 ∈ S ∧ e.2 = v)).length ≤
      (es.filter (fun e => e.2 = v)).length := by
  intro es L S v hdis
  induction es with
  | nil => exact le_refl _
  | cons e es ih =>
      by_cases h1 : e.1 ∈ L <;> by_cases h2 : e.1 ∈ S <;>
        by_cases h3 : e.2 = v <;>
        first
        | (exact absurd h2 (hdis _ h1))
        | (simp_all [List.filter_cons] <;> omega)

lemma cnt_full : ∀ (es : List (Node × Node)) (L : List Node) (v : Node),
    (∀ e ∈ es, e.2 = v → e.1 ∈ L) →
    (es.filter (fun e => e.1 ∈ L ∧ e.2 = v)).length =
      (es.filter (fun e => e.2 = v)).length := by
  intro es L v hall
  induction es with
  | nil => rfl
  | cons e es ih =>
      have ih2 := ih (fun x hx hv => hall x (List.mem_cons_of_mem _ hx) hv)
      simp only [Bool.decide_and] at ih2
      by_cases h3 : e.2 = v
      · have h1 : e.1 ∈ L := hall e (List.mem_cons_self _ _) h3
        simp [List.filter_cons, h1, h3, ih2]
      · simp [List.filter_cons, h3, ih2]

lemma cnt_pos_of_mem {es : List (Node × Node)} {S : List Node} {p s : Node}
    (hp : p ∈ S) (he : (p, s) ∈ es) :
    1 ≤ (es.filter (fun e => e.1 ∈ S ∧ e.2 = s)).length := by
  have : (p, s) ∈ es.filter (fun e => e.1 ∈ S ∧ e.2 = s) := by
    rw [List.mem_filter]
    exact ⟨he, by simpa using hp⟩
  exact List.length_pos.mpr (List.ne_nil_of_mem this)

lemma hardEdges_snd_mem (tasks : List VTask) :
    ∀ e ∈ hardEdges tasks, e.2 ∈ allIds tasks := by
  intro e he
  unfold hardEdges at he
  rw [List.mem_flatMap] at he
  obtain ⟨t, ht, hmem⟩ := he
  rw [List.mem_map] at hmem
  obtain ⟨d, _, rfl⟩ := hmem
  unfold allIds
  rw [List.mem_dedup]
  exact List.mem_map_of_mem VTask.id ht

lemma mem_graphOf {tasks : List VTask} {u x : Node}
    (hx : x ∈ graphOf tasks u) : (u, x) ∈ hardEdges tasks := by
  unfold graphOf at hx
  rw [List.mem_map] at hx
  obtain ⟨e, he, rfl⟩ := hx
  rw [List.mem_filter] at he
  have : e.1 = u := by simpa using he.2
  rw [← this]
  exact he.1

lemma kahnInv_step {tasks : List VTask} {current : Node} {rest : List Node}
    {deg : Node → Int} {sorted : List Node}
    (inv : KahnInv tasks (current :: rest) deg sorted) :
    KahnInv tasks (processNeighbors (graphOf tasks current) deg rest).2
      (processNeighbors (graphOf tasks current) deg rest).1 (sorted ++ [current]) := by
  have hnodup := inv.nodup
  rw [List.cons_append, List.nodup_cons] at hnodup
  obtain ⟨hcur, hrs⟩ := hnodup
  have hcur_rest : current ∉ rest := fun hc => hcur (List.mem_append_left _ hc)
  have hcur_sorted : current ∉ sorted := fun hc => hcur (List.mem_append_right _ hc)
  have hrest_le : ∀ x ∈ rest, deg x ≤ 0 := fun x hx =>
    inv.nonpos x (by simp [hx])
  have hdeg1 : ∀ v, (processNeighbors (graphOf tasks current) deg rest).1 v =
      initDeg tasks v - (cntInto tasks (sorted ++ [current]) v : Int) := by
    intro v
    rw [pn_deg, inv.degEq]
    unfold graphOf
    rw [count_filter_map]
    unfold cntInto
    rw [cnt_split _ _ _ _ hcur_sorted]
    push_cast
    ring
  constructor
  · -- nodup
    rw [List.nodup_append]
    refine ⟨?_, ?_, ?_⟩
    · exact pn_nodup _ _ _ hrest_le (hrs.of_append_left)
    · rw [List.nodup_append]
      exact ⟨hrs.of_append_right, List.nodup_singleton _,
        fun a ha hb => hcur_sorted ((List.mem_singleton.mp hb) ▸ ha)⟩
    · intro x hx hmem
      rcases pn_queue_src _ _ _ _ hx with hr | hns
      · rcases List.mem_append.mp hmem with hs | hc
        · exact (List.disjoint_of_nodup_append hrs) hr hs
        · exact hcur_rest ((List.mem_singleton.mp hc) ▸ hr)
      · by_cases hrq : x ∈ rest
        · rcases List.mem_append.mp hmem with hs | hc
          · exact (List.disjoint_of_nodup_append hrs) hrq hs
          · exact hcur_rest ((List.mem_singleton.mp hc) ▸ hrq)
        · have hpos := pn_queue_new_pos _ _ _ _ hx hrq
          rcases List.mem_append.mp hmem with hs | hc
          · have := inv.nonpos x (by simp [hs])
            omega
          · have hxc : x = current := List.mem_singleton.mp hc
            have := inv.nonpos current (by simp)
            rw [hxc] at hpos
            omega
  · -- sub
    intro v hv
    rcases List.mem_append.mp hv with hq | hs
    · rcases pn_queue_src _ _ _ _ hq with hr | hns
      · exact inv.sub v (by simp [hr])
      · exact hardEdges_snd_mem tasks _ (mem_graphOf hns)
    · rcases List.mem_append.mp hs with hs | hc
      · exact inv.sub v (by simp [hs])
      · exact (List.mem_singleton.mp hc) ▸ inv.sub current (by simp)
  · exact hdeg1
  · -- nonpos
    intro v hv
    rcases List.mem_append.mp hv with hq | hs
    · exact pn_nonpos _ _ _ hrest_le v hq
    · rw [pn_deg]
      have hv0 : deg v ≤ 0 := by
        rcases List.mem_append.mp hs with hs | hc
        · exact inv.nonpos v (by simp [hs])
        · exact (List.mem_singleton.mp hc) ▸ inv.nonpos current (by simp)
      have : (0 : Int) ≤ ((graphOf tasks current).count v : Int) := by positivity
      omega
  · -- complete
    intro v hvA hv0
    rw [pn_deg] at hv0
    by_cases hcnt : 0 < (graphOf tasks current).count v
    · exact List.mem_append_left _ (pn_complete _ _ _ _ hcnt hv0)
    · have hz : (graphOf tasks current).count v = 0 := by omega
      have hdv : deg v = 0 := by
        rw [hz] at hv0
        push_cast at hv0
        omega
      have hmem := inv.complete v hvA hdv
      rw [List.cons_append, List.mem_cons] at hmem
      rcases hmem with hvc | hmem
      · exact List.mem_append_right _ (List.mem_append_right _ (by simp [hvc]))
      · rcases List.mem_append.mp hmem with hr | hs
        · exact List.mem_append_left _ (pn_queue_mono _ _ _ _ hr)
        · exact List.mem_append_right _ (List.mem_append_left _ hs)

lemma nodup_sub_length {l L : List Node} (hn : l.Nodup) (hs : ∀ v ∈ l, v ∈ L) :
    l.length ≤ L.length := by
  calc l.length = l.toFinset.card := (List.toFinset_card_of_nodup hn).symm
  _ ≤ L.toFinset.card := Finset.card_le_card (fun x hx => by
      rw [List.mem_toFinset] at hx ⊢
      exact hs x hx)
  _ ≤ L.length := L.toFinset_card_le

/-- The peel's output is a duplicate-free list of known nodes. -/
lemma kahnLoop_nodup_sub {tasks : List VTask} :
    ∀ (fuel : Nat) (q : List Node) (deg : Node → Int) (sorted : List Node),
    KahnInv tasks q deg sorted →
    (kahnLoop (graphOf tasks) fuel q deg sorted).Nodup ∧
    (∀ v ∈ kahnLoop (graphOf tasks) fuel q deg sorted, v ∈ allIds tasks) := by
  intro fuel
  induction fuel with
  | zero =>
      intro q deg sorted inv
      exact ⟨inv.nodup.of_append_right,
        fun v hv => inv.sub v (List.mem_append_right _ hv)⟩
  | succ fuel ih =>
      intro q deg sorted inv
      cases q with
      | nil =>
          exact ⟨inv.nodup.of_append_right,
            fun v hv => inv.sub v (List.mem_append_right _ hv)⟩
      | cons current rest =>
          show (kahnLoop (graphOf tasks) fuel _ _ (sorted ++ [current])).Nodup ∧ _
          exact ih _ _ _ (kahnInv_step inv)

/-- No member of a self-sustaining node set (each member has a
predecessor edge from inside the set) is ever peeled. -/
lemma kahnLoop_avoid {tasks : List VTask} (S : List Node)
    (hS : ∀ s ∈ S, ∃ p ∈ S, (p, s) ∈ hardEdges tasks) :
    ∀ (fuel : Nat) (q : List Node) (deg : Node → Int) (sorted : List Node),
    KahnInv tasks q deg sorted →
    (∀ s ∈ S, s ∉ q ∧ s ∉ sorted) →
    ∀ s ∈ S, s ∉ kahnLoop (graphOf tasks) fuel q deg sorted := by
  intro fuel
  induction fuel with
  | zero => intro q deg sorted _ hdis s hs; exact (hdis s hs).2
  | succ fuel ih =>
      intro q deg sorted inv hdis s hs
      cases q with
      | nil => exact (hdis s hs).2
      | cons current rest =>
          show s ∉ kahnLoop (graphOf tasks) fuel _ _ (sorted ++ [current])
          have inv2 := kahnInv_step inv
          refine ih _ _ _ inv2 ?_ s hs
          intro x hx
          have hxq := (hdis x hx).1
          have hxs := (hdis x hx).2
          have hxc : x ≠ current := fun hc => hxq (hc ▸ List.mem_cons_self _ _)
          have hxrest : x ∉ rest := fun hc => hxq (List.mem_cons_of_mem _ hc)
          have hxs2 : x ∉ sorted ++ [current] := by
            intro hc
            rcases List.mem_append.mp hc with h | h
            · exact hxs h
            · exact hxc (List.mem_singleton.mp h)
          refine ⟨?_, hxs2⟩
          -- x keeps in-degree at least one after this step, so the
          -- neighbour loop cannot enqueue it
          have hbound : 1 ≤ (processNeighbors (graphOf tasks current) deg rest).1 x := by
            rw [inv2.degEq x]
            have hdisj : ∀ y ∈ sorted ++ [current], y ∉ S := by
              intro y hy hyS
              rcases List.mem_append.mp hy with h | h
              · exact (hdis y hyS).2 h
              · exact (hdis y hyS).1 ((List.mem_singleton.mp h) ▸ List.mem_cons_self _ _)
            have hadd := cnt_disjoint_add_le (hardEdges tasks) (sorted ++ [current]) S x hdisj
            obtain ⟨p, hpS, hpe⟩ := hS x hx
            have hpos := cnt_pos_of_mem hpS hpe
            unfold initDeg cntInto
            unfold cntFrom at hpos
            omega
          intro hc
          rcases pn_queue_src _ _ _ _ hc with h | h
          · exact hxrest h
          · have := pn_avoid (graphOf tasks current) deg rest x hxrest ?_ hc
            · exact this
            · rw [← pn_deg]
              exact hbound

/-- With fuel exceeding the node count, the peel drains its queue, and
the invariant holds of the final state. -/
lemma kahnLoop_final {tasks : List VTask} :
    ∀ (fuel : Nat) (q : List Node) (deg : Node → Int) (sorted : List Node),
    KahnInv tasks q deg sorted →
    (allIds tasks).length < sorted.length + fuel →
    ∃ degf, KahnInv tasks [] degf (kahnLoop (graphOf tasks) fuel q deg sorted) := by
  intro fuel
  induction fuel with
  | zero =>
      intro q deg sorted inv hfuel
      exfalso
      have hle : sorted.length ≤ (allIds tasks).length :=
        nodup_sub_length inv.nodup.of_append_right
          (fun v hv => inv.sub v (List.mem_append_right _ hv))
      omega
  | succ fuel ih =>
      intro q deg sorted inv hfuel
      cases q with
      | nil => exact ⟨deg, inv⟩
      | cons current rest =>
          show ∃ degf, KahnInv tasks [] degf
            (kahnLoop (graphOf tasks) fuel _ _ (sorted ++ [current]))
          refine ih _ _ _ (kahnInv_step inv) ?_
          simp only [List.length_append, List.length_singleton]
          omega

/-- The invariant holds of the initial queue and in-degree map. -/
lemma kahnInv_init (tasks : List VTask) :
    KahnInv tasks ((allIds tasks).filter (fun v => initDeg tasks v = 0))
      (initDeg tasks) [] := by
  constructor
  · rw [List.append_nil]
    exact (List.nodup_dedup _).filter _
  · intro v hv
    rw [List.append_nil] at hv
    exact List.mem_of_mem_filter hv
  · intro v
    have : cntInto tasks [] v = 0 := by
      unfold cntInto
      simp
    rw [this]
    simp
  · intro v hv
    rw [List.append_nil] at hv
    have := List.of_mem_filter hv
    simp only [decide_eq_true_eq] at this
    omega
  · intro v hvA hv0
    rw [List.append_nil]
    exact List.mem_filter.mpr ⟨hvA, by simpa using hv0⟩

/-- C2: on every State Document whose hard-dependency relation has a
cycle (a non-empty self-sustaining node set), the Dependency Graph
Checker reports failure, the reported cycle set is exactly the set of
known ids not removed by the in-degree topological peel, the reported
set is non-empty, and (when the document's required sections are
present) the validator records the failure as a structural error. -/
theorem validate_dag_cycle (s : StateDoc)
    (hcyc : HasCycle (s.tasks.getD [])) :
    (validate_dag s).1 = false ∧
    (validate_dag s).2 = (allIds (s.tasks.getD [])).filter
      (fun v => ¬ v ∈ kahnSorted (s.tasks.getD [])) ∧
    (validate_dag s).2 ≠ [] ∧
    (validate_required_fields s = [] →
      ("Circular dependency involving: " ++
        toString ((validate_dag s).2.map pyStr)) ∈ validationErrors s) := by
  obtain ⟨S, hSne, hSsub, hS⟩ := hcyc
  set tasks := s.tasks.getD [] with htasks
  have hksrfl : kahnSorted tasks = kahnLoop (graphOf tasks)
      ((allIds tasks).length + 1)
      ((allIds tasks).filter (fun v => initDeg tasks v = 0)) (initDeg tasks) [] := rfl
  have hinit := kahnInv_init tasks
  have hdis : ∀ x ∈ S,
      x ∉ (allIds tasks).filter (fun v => initDeg tasks v = 0) ∧
      x ∉ ([] : List Node) := by
    intro x hx
    refine ⟨?_, by simp⟩
    intro hc
    have hz := List.of_mem_filter hc
    simp only [decide_eq_true_eq] at hz
    have hz2 : ((hardEdges tasks).filter (fun e => e.2 = x)).length = 0 := by
      unfold initDeg at hz
      exact_mod_cast hz
    obtain ⟨p, hpS, hpe⟩ := hS x hx
    have hpos := cnt_pos_of_mem hpS hpe
    have hle := cnt_le (hardEdges tasks) S x
    omega
  have havoid := kahnLoop_avoid S hS ((allIds tasks).length + 1) _ _ [] hinit hdis
  have hns := kahnLoop_nodup_sub ((allIds tasks).length + 1) _ _ [] hinit
  have hnodup : (kahnSorted tasks).Nodup := hksrfl ▸ hns.1
  have hsub : ∀ v ∈ kahnSorted tasks, v ∈ allIds tasks := hksrfl ▸ hns.2
  obtain ⟨s₀, hs₀⟩ := List.exists_mem_of_ne_nil S hSne
  have hs₀A : s₀ ∈ allIds tasks := hSsub s₀ hs₀
  have hs₀n : s₀ ∉ kahnSorted tasks := hksrfl ▸ havoid s₀ hs₀
  have hlen : (kahnSorted tasks).length < (allIds tasks).length := by
    have h1 : (kahnSorted tasks).toFinset.card = (kahnSorted tasks).length :=
      List.toFinset_card_of_nodup hnodup
    have h2 : (kahnSorted tasks).toFinset ⊆ (allIds tasks).toFinset.erase s₀ := by
      intro x hx
      rw [List.mem_toFinset] at hx
      rw [Finset.mem_erase]
      exact ⟨fun hc => hs₀n (hc ▸ hx), List.mem_toFinset.mpr (hsub x hx)⟩
    have h3 := Finset.card_le_card h2
    rw [Finset.card_erase_of_mem (List.mem_toFinset.mpr hs₀A)] at h3
    have h4 : (allIds tasks).toFinset.card = (allIds tasks).length :=
      List.toFinset_card_of_nodup (List.nodup_dedup _)
    have h5 : 0 < (allIds tasks).length :=
      List.length_pos.mpr (List.ne_nil_of_mem hs₀A)
    omega
  have hne : ¬ ((kahnSorted tasks).length = (allIds tasks).length) := by omega
  have h1 : (validate_dag s).1 = false := by
    unfold validate_dag
    rw [← htasks]
    simp only [if_neg hne]
  have h2 : (validate_dag s).2 = (allIds tasks).filter
      (fun v => ¬ v ∈ kahnSorted tasks) := by
    unfold validate_dag
    rw [← htasks]
    simp only [if_neg hne]
  refine ⟨h1, h2, ?_, ?_⟩
  · rw [h2]
    exact List.ne_nil_of_mem
      (List.mem_filter.mpr ⟨hs₀A, by simpa using hs₀n⟩)
  · intro hreq
    unfold validationErrors
    rw [if_pos hreq, h1]
    simp

/-- Witness for C2: on the A↔B document the checker fails and reports
exactly the two-element cycle set. -/
theorem validate_dag_cycle_witness :
    HasCycle (c2Doc.tasks.getD []) ∧
    ((validate_dag c2Doc).1 = false ∧ (validate_dag c2Doc).2 ≠ []) ∧
    (validate_dag c2Doc).2 = [some "A", some "B"] :=
  ⟨⟨[some "A", some "B"], by decide, by decide, by decide⟩,
    ⟨(validate_dag_cycle c2Doc
        ⟨[some "A", some "B"], by decide, by decide, by decide⟩).1,
     (validate_dag_cycle c2Doc
        ⟨[some "A", some "B"], by decide, by decide, by decide⟩).2.2.1⟩,
    by decide⟩

/-- C3 (amended): on every State Document whose hard-dependency
relation is acyclic and whose hard dependencies all name existing
tasks, the Dependency Graph Checker reports success. -/
theorem validate_dag_acyclic (s : StateDoc)
    (hacyc : ¬ HasCycle (s.tasks.getD []))
    (hclosed : EdgesClosed (s.tasks.getD [])) :
    validate_dag s = (true, []) := by
  set tasks := s.tasks.getD [] with htasks
  have hksrfl : kahnSorted tasks = kahnLoop (graphOf tasks)
      ((allIds tasks).length + 1)
      ((allIds tasks).filter (fun v => initDeg tasks v = 0)) (initDeg tasks) [] := rfl
  have hinit := kahnInv_init tasks
  obtain ⟨degf, invf⟩ := kahnLoop_final ((allIds tasks).length + 1) _ _ [] hinit
    (by simp)
  rw [← hksrfl] at invf
  have hns := kahnLoop_nodup_sub ((allIds tasks).length + 1) _ _ [] hinit
  have hnodup : (kahnSorted tasks).Nodup := hksrfl ▸ hns.1
  have hsub : ∀ v ∈ kahnSorted tasks, v ∈ allIds tasks := hksrfl ▸ hns.2
  have hres : ∀ r ∈ allIds tasks, r ∉ kahnSorted tasks →
      ∃ u, (u, r) ∈ hardEdges tasks ∧ u ∉ kahnSorted tasks ∧ u ∈ allIds tasks := by
    intro r hrA hrn
    have hne0 : degf r ≠ 0 := by
      intro h0
      exact hrn (by simpa using invf.complete r hrA h0)
    have hdeq := invf.degEq r
    unfold initDeg cntInto at hdeq
    have hcle := cnt_le (hardEdges tasks) (kahnSorted tasks) r
    have hex : ¬ (∀ e ∈ hardEdges tasks, e.2 = r → e.1 ∈ kahnSorted tasks) := by
      intro hall
      have hfull := cnt_full (hardEdges tasks) (kahnSorted tasks) r hall
      omega
    push_neg at hex
    obtain ⟨e, heE, h2r, hnin⟩ := hex
    refine ⟨e.1, ?_, hnin, hclosed e heE⟩
    rw [← h2r]
    exact heE
  by_cases hall : ∀ v ∈ allIds tasks, v ∈ kahnSorted tasks
  · have hlen : (kahnSorted tasks).length = (allIds tasks).length :=
      le_antisymm (nodup_sub_length hnodup hsub)
        (nodup_sub_length (List.nodup_dedup _) hall)
    show validate_dag s = (true, [])
    unfold validate_dag
    rw [← htasks]
    simp only [if_pos hlen]
  · exfalso
    push_neg at hall
    obtain ⟨v₀, hv₀A, hv₀n⟩ := hall
    apply hacyc
    refine ⟨(allIds tasks).filter (fun v => ¬ v ∈ kahnSorted tasks), ?_, ?_, ?_⟩
    · exact List.ne_nil_of_mem (List.mem_filter.mpr ⟨hv₀A, by simpa using hv₀n⟩)
    · intro x hx
      exact (List.mem_filter.mp hx).1
    · intro r hr
      have hrA := (List.mem_filter.mp hr).1
      have hrn : r ∉ kahnSorted tasks := by
        simpa using (List.mem_filter.mp hr).2
      obtain ⟨u, hue, hun, huA⟩ := hres r hrA hrn
      exact ⟨u, List.mem_filter.mpr ⟨huA, by simpa using hun⟩, hue⟩

/-- C3 counterexample: the dangling-dependency document has an acyclic
hard-dependency relation, yet `validate_dag` reports a circular
dependency naming the dependent task (the phantom source is never
enqueued, so its target is never peeled). -/
theorem validate_dag_dangling_dep_reports_cycle :
    ¬ HasCycle (c3Doc.tasks.getD []) ∧
    validate_dag c3Doc = (false, [some "A"]) := by
  constructor
  · rintro ⟨S, hne, hsub, hstep⟩
    obtain ⟨s₀, hs₀⟩ := List.exists_mem_of_ne_nil S hne
    have hA : s₀ = some "A" := by
      have := hsub s₀ hs₀
      simpa [c3Doc, allIds, hardEdges] using this
    obtain ⟨p, hpS, hpe⟩ := hstep s₀ hs₀
    have hpX : p = some "X" := by
      rw [hA] at hpe
      simpa [c3Doc, hardEdges] using hpe
    have := hsub p hpS
    rw [hpX] at this
    simp [c3Doc, allIds] at this
  · decide

lemma string_append_right_cancel {x y s : String} (hxy : x ++ s = y ++ s) :
    x = y := by
  have hd : (x ++ s).data = (y ++ s).data := congrArg String.data hxy
  rw [String.data_append, String.data_append] at hd
  have := List.append_cancel_right hd
  cases x
  cases y
  exact congrArg String.mk this

/-- Witness for C3 (amended) on a document of isolated tasks. -/
theorem validate_dag_acyclic_witness :
    (¬ HasCycle (c3AcyclicDoc.tasks.getD []) ∧ EdgesClosed (c3AcyclicDoc.tasks.getD [])) ∧
    validate_dag c3AcyclicDoc = (true, []) :=
  have hnc : ¬ HasCycle (c3AcyclicDoc.tasks.getD []) := by
    rintro ⟨S, hne, hsub, hstep⟩
    obtain ⟨s₀, hs₀⟩ := List.exists_mem_of_ne_nil S hne
    obtain ⟨p, _, hpe⟩ := hstep s₀ hs₀
    simp [c3AcyclicDoc, hardEdges] at hpe
  ⟨⟨hnc, by decide⟩, validate_dag_acyclic c3AcyclicDoc hnc (by decide)⟩

lemma fileOf_inj {b a : CreateArgs}
    (hne : generate_checkpoint_id b.time ≠ generate_checkpoint_id a.time) :
    fileOf b ≠ fileOf a := by
  intro hc
  exact hne (string_append_right_cancel hc)

lemma createRun_step (h : String → String) (state : JValue) (ctx : CpContext)
    (K : Nat) (hK : 1 ≤ K) (done : List CreateArgs) (a : CreateArgs) (fs : Orch)
    (inv : RunInv h state ctx K done fs)
    (hctx : buildContext state = .ok ctx)
    (hids : ((done ++ [a]).map (fun b => generate_checkpoint_id b.time)).Nodup) :
    RunInv h state ctx K (done ++ [a])
      (create_checkpoint h a.time fs a.trigger a.description a.task_id).1 := by
  obtain ⟨hst, hman, hfiles⟩ := inv
  -- freshness of the new id against everything retained
  have hfresh : ∀ b ∈ done,
      generate_checkpoint_id b.time ≠ generate_checkpoint_id a.time := by
    intro b hb hc
    rw [List.map_append] at hids
    have hdisj := List.disjoint_of_nodup_append hids
    exact hdisj (List.mem_map_of_mem _ hb) (by simp [hc])
  have hfileNodup : ((done ++ [a]).map fileOf).Nodup := by
    have : (done ++ [a]).map fileOf =
        ((done ++ [a]).map (fun b => generate_checkpoint_id b.time)).map
          (fun s => s ++ ".yaml") := by
      rw [List.map_map]
      rfl
    rw [this]
    refine hids.map ?_
    intro x y hxy
    exact string_append_right_cancel hxy
  -- the write appends a fresh file
  have hany : (fs.cpFiles.any (fun p => p.1 = fileOf a)) = false := by
    rw [hfiles, List.any_eq_false]
    intro p hp
    rw [List.mem_map] at hp
    obtain ⟨b, hb, rfl⟩ := hp
    have hbdone : b ∈ done := List.mem_of_mem_drop hb
    simpa using fileOf_inj (hfresh b hbdone)
  have hwrite : writeCpFile fs.cpFiles (fileOf a) (storedOf h state ctx a) =
      (done.drop (done.length - K)).map (fun b => (fileOf b, storedOf h state ctx b))
        ++ [(fileOf a, storedOf h state ctx a)] := by
    unfold writeCpFile
    rw [if_neg (by simp [hany]), hfiles]
  unfold create_checkpoint
  simp only [hst, hctx, hman, Option.getD_some]
  refine ⟨rfl, ?_, ?_⟩
  · -- manifest
    show some (enforce_retention
        ⟨(done.drop (done.length - K)).map entryOf ++ [entryOf a],
         some (generate_checkpoint_id a.time), some K⟩
        (writeCpFile fs.cpFiles (fileOf a) (storedOf h state ctx a))).1 =
      some ⟨((done ++ [a]).drop ((done ++ [a]).length - K)).map entryOf,
        ((done ++ [a]).getLast?).map (fun b => generate_checkpoint_id b.time), some K⟩
    rw [hwrite, List.getLast?_concat]
    unfold enforce_retention
    dsimp only [Option.getD_some]
    by_cases hlt : done.length < K
    · have e0 : done.length - K = 0 := by omega
      rw [e0, List.drop_zero]
      rw [if_neg (by simp; omega)]
      have e1 : (done ++ [a]).length - K = 0 := by simp; omega
      rw [e1, List.drop_zero, List.map_append]
      rfl
    · have hgeK : K ≤ done.length := by omega
      have hlen : ((done.drop (done.length - K)).map entryOf).length = K := by
        rw [List.length_map, List.length_drop]
        omega
      rw [if_pos (by rw [List.length_append, hlen]; simp)]
      unfold pyTakeLast
      rw [if_neg (by omega)]
      rw [List.length_append, hlen]
      have e2 : K + [entryOf a].length - K = 1 := by simp
      rw [e2]
      rw [List.drop_append_of_le_length (by rw [hlen]; omega)]
      rw [← List.map_drop, List.drop_drop]
      have e3 : (done ++ [a]).length - K = done.length - K + 1 := by
        simp; omega
      rw [e3]
      rw [List.drop_append_of_le_length (by omega)]
      rw [List.map_append]
      simp
  · -- files
    show (enforce_retention
        ⟨(done.drop (done.length - K)).map entryOf ++ [entryOf a],
         some (generate_checkpoint_id a.time), some K⟩
        (writeCpFile fs.cpFiles (fileOf a) (storedOf h state ctx a))).2 =
      ((done ++ [a]).drop ((done ++ [a]).length - K)).map
        (fun b => (fileOf b, storedOf h state ctx b))
    rw [hwrite]
    unfold enforce_retention
    dsimp only [Option.getD_some]
    by_cases hlt : done.length < K
    · have e0 : done.length - K = 0 := by omega
      rw [e0, List.drop_zero]
      rw [if_neg (by simp; omega)]
      have e1 : (done ++ [a]).length - K = 0 := by simp; omega
      rw [e1, List.drop_zero, List.map_append]
      simp
    · have hgeK : K ≤ done.length := by omega
      have hlenD : (done.drop (done.length - K)).length = K := by
        rw [List.length_drop]; omega
      have hlen : ((done.drop (done.length - K)).map entryOf).length = K := by
        rw [List.length_map]; exact hlenD
      rw [if_pos (by rw [List.length_append, hlen]; simp)]
      dsimp only
      obtain ⟨b₀, tl, hdrop⟩ : ∃ b₀ tl, done.drop (done.length - K) = b₀ :: tl := by
        rcases hd : done.drop (done.length - K) with _ | ⟨b₀, tl⟩
        · rw [hd] at hlenD; simp at hlenD; omega
        · exact ⟨b₀, tl, rfl⟩
      unfold pyDropLast
      rw [if_neg (by omega)]
      rw [List.length_append, hlen]
      have e2 : K + [entryOf a].length - K = 1 := by simp
      rw [e2]
      rw [hdrop]
      have htake : ((((b₀ :: tl).map entryOf) ++ [entryOf a]).take 1) = [entryOf b₀] := by
        simp
      rw [htake]
      simp only [List.foldl_cons, List.foldl_nil]
      have hdel : deleteCpFile ((b₀ :: tl).map (fun b => (fileOf b, storedOf h state ctx b))
          ++ [(fileOf a, storedOf h state ctx a)]) (entryOf b₀).file =
          tl.map (fun b => (fileOf b, storedOf h state ctx b))
            ++ [(fileOf a, storedOf h state ctx a)] := by
        have hnd2 : (((b₀ :: tl) ++ [a]).map fileOf).Nodup := by
          refine List.Nodup.sublist ?_ hfileNodup
          refine List.Sublist.map _ ?_
          rw [← hdrop]
          exact List.Sublist.append_right (List.drop_sublist _ _) _
        have hb0nin : fileOf b₀ ∉ (tl ++ [a]).map fileOf := by
          rw [List.cons_append, List.map_cons] at hnd2
          exact (List.nodup_cons.mp hnd2).1
        unfold deleteCpFile
        simp only [List.map_cons, List.cons_append]
        rw [List.filter_cons]
        rw [if_neg (by simp [entryOf, fileOf])]
        refine List.filter_eq_self.mpr ?_
        intro p hp
        have hp2 : p ∈ (tl ++ [a]).map (fun b => (fileOf b, storedOf h state ctx b)) := by
          simpa [List.map_append] using hp
        rw [List.mem_map] at hp2
        obtain ⟨b, hb, rfl⟩ := hp2
        have : fileOf b ≠ fileOf b₀ := by
          intro hc
          exact hb0nin (hc ▸ List.mem_map_of_mem _ hb)
        simpa [entryOf, fileOf] using this
      rw [hdel]
      have e3 : (done ++ [a]).length - K = done.length - K + 1 := by
        simp; omega
      rw [e3]
      rw [List.drop_append_of_le_length (by omega)]
      have e4 : done.drop (done.length - K + 1) = tl := by
        have := List.drop_drop 1 (done.length - K) done
        rw [hdrop] at this
        simpa using this.symm
      rw [e4, List.map_append]
      simp

/-- Each step of a creation run preserves the retention invariant. -/
lemma createRun_inv (h : String → String) (state : JValue) (ctx : CpContext)
    (K : Nat) (hK : 1 ≤ K) (hctx : buildContext state = .ok ctx) :
    ∀ (args done : List CreateArgs) (fs : Orch),
    RunInv h state ctx K done fs →
    ((done ++ args).map (fun b => generate_checkpoint_id b.time)).Nodup →
    RunInv h state ctx K (done ++ args) (createRun h fs args) := by
  intro args
  induction args with
  | nil => intro done fs inv _; simpa using inv
  | cons a rest ih =>
      intro done fs inv hids
      have hids1 : ((done ++ [a]).map
          (fun b => generate_checkpoint_id b.time)).Nodup := by
        refine List.Nodup.sublist ?_ hids
        refine List.Sublist.map _ ?_
        exact (List.singleton_sublist.mpr (List.mem_cons_self a rest)).append_left done
      have hstep := createRun_step h state ctx K hK done a fs inv hctx hids1
      have hids2 : (((done ++ [a]) ++ rest).map
          (fun b => generate_checkpoint_id b.time)).Nodup := by
        rw [List.append_assoc, List.singleton_append]
        exact hids
      have h2 := ih (done ++ [a]) _ hstep hids2
      rw [List.append_assoc, List.singleton_append] at h2
      exact h2

/-- C4 (amended): starting from an empty manifest with retention
`keep_last = K` (`1 ≤ K`), a sequence of `N > K` checkpoint creations
with pairwise distinct generated ids leaves a manifest holding exactly
the `K` most recently created entries in creation order, with `latest`
naming the newest checkpoint, the retained storage files being exactly
those of the kept entries, and every evicted creation's storage file
deleted from the directory. -/
theorem retention_keeps_last_K (h : String → String) (state : JValue)
    (ctx : CpContext) (K : Nat) (args : List CreateArgs)
    (hK : 1 ≤ K) (hKN : K < args.length)
    (hctx : buildContext state = .ok ctx)
    (hids : (args.map (fun b => generate_checkpoint_id b.time)).Nodup) :
    (createRun h ⟨some state, some ⟨[], none, some K⟩, [], []⟩ args).manifestFile =
      some ⟨(args.drop (args.length - K)).map entryOf,
        (args.getLast?).map (fun b => generate_checkpoint_id b.time), some K⟩ ∧
    ((createRun h ⟨some state, some ⟨[], none, some K⟩, [], []⟩ args).manifestFile.map
      (fun m => m.checkpoints.length)) = some K ∧
    (createRun h ⟨some state, some ⟨[], none, some K⟩, [], []⟩ args).cpFiles =
      (args.drop (args.length - K)).map (fun b => (fileOf b, storedOf h state ctx b)) ∧
    (∀ b ∈ args.take (args.length - K),
      ∀ p ∈ (createRun h ⟨some state, some ⟨[], none, some K⟩, [], []⟩ args).cpFiles,
        p.1 ≠ fileOf b) := by
  have h0 : RunInv h state ctx K [] ⟨some state, some ⟨[], none, some K⟩, [], []⟩ :=
    ⟨rfl, by simp, by simp⟩
  have hrun := createRun_inv h state ctx K hK hctx args [] _ h0 (by simpa using hids)
  rw [List.nil_append] at hrun
  obtain ⟨hs, hm, hf⟩ := hrun
  refine ⟨hm, ?_, hf, ?_⟩
  · rw [hm]
    simp only [Option.map_some']
    congr 1
    rw [List.length_map, List.length_drop]
    omega
  · intro b hb p hp
    rw [hf] at hp
    rw [List.mem_map] at hp
    obtain ⟨b2, hb2, rfl⟩ := hp
    intro hc
    have hc2 : generate_checkpoint_id b2.time = generate_checkpoint_id b.time :=
      string_append_right_cancel hc
    have hids2 : (((args.take (args.length - K)) ++
        (args.drop (args.length - K))).map
        (fun b => generate_checkpoint_id b.time)).Nodup := by
      rw [List.take_append_drop]
      exact hids
    rw [List.map_append] at hids2
    have hdisj := List.disjoint_of_nodup_append hids2
    exact hdisj (List.mem_map_of_mem _ hb) (hc2 ▸ List.mem_map_of_mem _ hb2)

/-- Witness for C4 (amended): the spec scenario `keep_last = 2`, three
sequential creations. -/
theorem retention_keeps_last_K_witness :
    ((1 : Nat) ≤ 2 ∧ 2 < c4WArgs.length ∧
     buildContext (.obj []) = .ok ⟨none, .num 0, []⟩ ∧
     (c4WArgs.map (fun b => generate_checkpoint_id b.time)).Nodup) ∧
    ((createRun (fun s => s) ⟨some (.obj []), some ⟨[], none, some 2⟩, [], []⟩
        c4WArgs).manifestFile =
      some ⟨(c4WArgs.drop (c4WArgs.length - 2)).map entryOf,
        (c4WArgs.getLast?).map (fun b => generate_checkpoint_id b.time), some 2⟩ ∧
     ((createRun (fun s => s) ⟨some (.obj []), some ⟨[], none, some 2⟩, [], []⟩
        c4WArgs).manifestFile.map (fun m => m.checkpoints.length)) = some 2 ∧
     (createRun (fun s => s) ⟨some (.obj []), some ⟨[], none, some 2⟩, [], []⟩
        c4WArgs).cpFiles =
      (c4WArgs.drop (c4WArgs.length - 2)).map
        (fun b => (fileOf b, storedOf (fun s => s) (.obj []) ⟨none, .num 0, []⟩ b)) ∧
     (∀ b ∈ c4WArgs.take (c4WArgs.length - 2),
      ∀ p ∈ (createRun (fun s => s) ⟨some (.obj []), some ⟨[], none, some 2⟩, [], []⟩
        c4WArgs).cpFiles, p.1 ≠ fileOf b)) :=
  ⟨⟨by decide, by decide, rfl, by decide⟩,
   retention_keeps_last_K (fun s => s) (.obj []) ⟨none, .num 0, []⟩ 2 c4WArgs
     (by decide) (by decide) rfl (by decide)⟩

/-- C4 counterexample: with `keep_last = 0 < N = 1`, the claim demands
zero retained entries, but Python's `l[:-0]`/`l[-0:]` slices make the
eviction a no-op, so the manifest keeps its single entry. -/
theorem retention_keep_last_zero_keeps_all :
    ((createRun (fun s => s) ⟨some (.obj []), some ⟨[], none, some 0⟩, [], []⟩
        [⟨⟨2026, 1, 2, 3, 4, 5⟩, "manual", none, none⟩]).manifestFile.map
      (fun m => m.checkpoints.length)) = some 1 ∧
    ((createRun (fun s => s) ⟨some (.obj []), some ⟨[], none, some 0⟩, [], []⟩
        [⟨⟨2026, 1, 2, 3, 4, 5⟩, "manual", none, none⟩]).manifestFile.map
      (fun m => m.checkpoints.length)) ≠ some 0 :=
  ⟨rfl, by decide⟩

end Orchestrator
